import Mathlib

set_option autoImplicit false

/-
Verification development for the wiznote_export WebAPI exporter
(src/webapi-export/src/{storage,converter,downloader}.py).

Python strings are modelled as lists of characters (Str), filesystem paths
as lists of path segments (FsPath), and the persistent note index
(a JSON object, i.e. an insertion-ordered dictionary) as an association
list from note GUIDs to index entries.
-/

abbrev Str := List Char

/-- Python string comparison a < b: lexicographic by Unicode code point.
This is the order used by the expression modified_time > saved_modified
in LocalStorage.is_note_modified (storage.py line 236). -/
def strLtB : Str → Str → Bool
  | [], [] => false
  | [], _ :: _ => true
  | _ :: _, [] => false
  | a :: xs, b :: ys => if a < b then true else if b < a then false else strLtB xs ys

theorem strLtB_self (s : Str) : strLtB s s = false := by
  induction s with
  | nil => rfl
  | cons a xs ih => simp [strLtB, ih]

/-- Index of the last occurrence of a character, mirroring Python str.rfind
(used by os.path.splitext). -/
def lastIdxOf (c : Char) : Str → Option Nat
  | [] => none
  | x :: xs =>
    match lastIdxOf c xs with
    | some i => some (i + 1)
    | none => if x = c then some 0 else none

/-- Embedding of os.path.splitext (genericpath._splitext with sep a slash and
no altsep): split off the extension at the last dot, except when every
character of the basename before that dot is itself a dot. -/
def splitExt (p : Str) : Str × Str :=
  match lastIdxOf '.' p with
  | none => (p, [])
  | some d =>
    let s : Nat :=
      match lastIdxOf '/' p with
      | some i => i + 1
      | none => 0
    if s ≤ d ∧ ((p.drop s).take (d - s)).any (fun c => c ≠ '.') then
      (p.take d, p.drop d)
    else (p, [])

/-- The fixed illegal-character set of LocalStorage.sanitize_filename
(storage.py line 60). -/
def illegalChars : Str := "<>:\"|?*\r\n\t".data

/-- Characters stripped from both ends by filename.strip(" ."). -/
def isSpaceDot (c : Char) : Bool := c == ' ' || c == '.'

/-- Strip characters satisfying p from both ends of a list,
mirroring Python str.strip with a character set. -/
def stripEnds (p : Char → Bool) (l : Str) : Str :=
  ((l.dropWhile p).reverse.dropWhile p).reverse

/-- Embedding of LocalStorage.sanitize_filename (storage.py lines 57-72):
replace each illegal character by an underscore, strip leading/trailing
spaces and dots, and truncate the base name (extension excluded) to 200
characters. -/
def sanitize_filename (f : Str) : Str :=
  let replaced := f.map (fun c => if c ∈ illegalChars then '_' else c)
  let stripped := stripEnds isSpaceDot replaced
  let ne := splitExt stripped
  (if ne.1.length > 200 then ne.1.take 200 else ne.1) ++ ne.2

/-- A filesystem path, as the list of its segments relative to the
output base directory. -/
abbrev FsPath := List Str

/-- Tag metadata as stored in a note record: Python code distinguishes a
list of tags from a single string (converter.py lines 205-210). -/
inductive TagVal where
  | list (ts : List Str)
  | single (t : Str)
  deriving DecidableEq, Repr

/-- One record of the persistent note index, as written by
LocalStorage.save_note (storage.py lines 138-148). -/
structure IndexEntry where
  title : Str
  file_path : FsPath
  team : Str
  folder : Str
  created : Option Str
  modified : Option Str
  tags : TagVal
  format : Str
  saved_at : Nat
  deriving DecidableEq, Repr

/-- The note index self.note_index: an insertion-ordered dictionary from
note GUID to entry, modelled as an association list. -/
abbrev NoteIndex := List (Str × IndexEntry)

/-- Dictionary lookup note_index.get(guid) respecting Python semantics
(at most one binding per key; first match wins). -/
def lookupIndex : NoteIndex → Str → Option IndexEntry
  | [], _ => none
  | e :: rest, guid => if e.1 = guid then some e.2 else lookupIndex rest guid

/-- Dictionary assignment note_index[guid] = entry: update in place when the
key is present (Python dicts keep the original position), append otherwise. -/
def setEntry : NoteIndex → Str → IndexEntry → NoteIndex
  | [], guid, entry => [(guid, entry)]
  | e :: rest, guid, entry =>
    if e.1 = guid then (guid, entry) :: rest else e :: setEntry rest guid entry

/-- Embedding of LocalStorage.get_note_guid_by_path (storage.py lines
114-119): scan the index in insertion order and return the GUID of the
first entry whose recorded file_path equals the given path. -/
def get_note_guid_by_path : NoteIndex → FsPath → Option Str
  | [], _ => none
  | e :: rest, p => if e.2.file_path = p then some e.1 else get_note_guid_by_path rest p

/-- Embedding of LocalStorage.is_note_modified (storage.py lines 224-236):
true when the GUID is absent from the index, when the stored entry has no
truthy modified field, or when the remote marker is strictly greater
(Python string comparison) than the stored one. -/
def is_note_modified (idx : NoteIndex) (guid marker : Str) : Bool :=
  match lookupIndex idx guid with
  | none => true
  | some info =>
    match info.modified with
    | none => true
    | some m => if m = [] then true else strLtB m marker

/-- A concrete index entry used to instantiate hypothesis-bearing theorems. -/
def sampleEntry : IndexEntry :=
  { title := "note".data
    file_path := ["Personal".data, "note.md".data]
    team := "Personal".data
    folder := "/Work".data
    created := none
    modified := some "2024-01-01".data
    tags := TagVal.list []
    format := "md".data
    saved_at := 0 }

/-- C1: for an identity absent from the index, is_note_modified returns
true; for an identity whose entry stores a (non-empty) modification marker
M, is_note_modified with remote marker M' returns true iff M' > M in
Python string comparison. (An entry whose modified field is missing or
empty stores no marker; that case is claim C8.) -/
theorem c1_is_note_modified_spec (idx : NoteIndex) (guid m' : Str) :
    (lookupIndex idx guid = none → is_note_modified idx guid m' = true) ∧
    (∀ info m, lookupIndex idx guid = some info → info.modified = some m → m ≠ [] →
      (is_note_modified idx guid m' = true ↔ strLtB m m' = true)) := by
  constructor
  · intro h
    simp [is_note_modified, h]
  · intro info m h hm hne
    simp [is_note_modified, h, hm, hne]

/-- Witness for C1 at concrete inputs: an empty index (absent identity) and
a one-entry index with stored marker 2024-01-01 against remote marker
2024-06-01. -/
theorem c1_is_note_modified_spec_witness :
    is_note_modified [] "g1".data "2024-06-01".data = true ∧
    (is_note_modified [("g1".data, sampleEntry)] "g1".data "2024-06-01".data = true ↔
      strLtB "2024-01-01".data "2024-06-01".data = true) := by
  constructor
  · exact (c1_is_note_modified_spec [] "g1".data "2024-06-01".data).1 rfl
  · exact (c1_is_note_modified_spec [("g1".data, sampleEntry)] "g1".data "2024-06-01".data).2
      sampleEntry "2024-01-01".data (by decide) (by decide) (by decide)

/-- C8: an identity present in the index whose entry lacks a modification
marker (modified field missing, or present but empty) is reported modified
for every remote marker, so such a note is always re-fetched in
incremental mode. -/
theorem c8_missing_marker_always_modified (idx : NoteIndex) (guid marker : Str)
    (info : IndexEntry) (h : lookupIndex idx guid = some info)
    (hm : info.modified = none ∨ info.modified = some []) :
    is_note_modified idx guid marker = true := by
  rcases hm with hm | hm <;> simp [is_note_modified, h, hm]

/-- Witness for C8 at a concrete one-entry index whose entry has an empty
modified field. -/
theorem c8_missing_marker_always_modified_witness :
    is_note_modified [("g2".data, { sampleEntry with modified := some [] })]
      "g2".data "2024-06-01".data = true :=
  c8_missing_marker_always_modified _ "g2".data "2024-06-01".data
    { sampleEntry with modified := some [] } (by decide) (Or.inr rfl)

/-- Split a list at every occurrence of a separator character, mirroring
Python str.split(sep) (adjacent separators produce empty pieces). -/
def splitOnChar (sep : Char) : Str → List Str
  | [] => [[]]
  | c :: rest =>
    if c = sep then [] :: splitOnChar sep rest
    else
      match splitOnChar sep rest with
      | [] => [[c]]
      | h :: t => (c :: h) :: t

/-- The sanitized folder components of get_note_path (storage.py lines
86-88): strip slashes from both ends, split on slashes, drop empty parts,
sanitize each part. -/
def folder_segments (folder : Str) : List Str :=
  ((splitOnChar '/' (stripEnds (fun c => c == '/') folder)).filter
    (fun part => part ≠ [])).map sanitize_filename

/-- Embedding of LocalStorage.get_team_path (storage.py lines 74-77),
relative to the output base directory. -/
def get_team_path (team : Str) : FsPath := [sanitize_filename team]

/-- The directory a note lands in (storage.py lines 84-92): hierarchical
under the team root when structure preservation is on and the folder path
is non-empty, flat otherwise. -/
def note_dir (preserve : Bool) (team folder : Str) : FsPath :=
  if preserve ∧ folder ≠ [] then get_team_path team ++ folder_segments folder
  else get_team_path team

/-- The note filename (storage.py lines 98-99): sanitized title plus the
literal .md extension. -/
def note_filename (title : Str) : Str := sanitize_filename title ++ ".md".data

/-- The collision-free candidate path computed before the collision check
(storage.py line 102). -/
def note_base_path (preserve : Bool) (team folder title : Str) : FsPath :=
  note_dir preserve team folder ++ [note_filename title]

/-- The disambiguated path of storage.py lines 107-110: the base filename
with an underscore and the first 8 characters of the GUID appended to the
stem, extension preserved. -/
def suffixed_note_path (preserve : Bool) (team folder title guid : Str) : FsPath :=
  let ne := splitExt (note_filename title)
  note_dir preserve team folder ++ [ne.1 ++ "_".data ++ guid.take 8 ++ ne.2]

/-- On-disk content: an association list from path to file content. -/
abbrev FileSys := List (FsPath × Str)

/-- The paths of the files that exist on disk. -/
def fsKeys (fs : FileSys) : List FsPath := fs.map Prod.fst

/-- Path existence check file_path.exists(). -/
def fileExists (fs : FileSys) (p : FsPath) : Bool := decide (p ∈ fsKeys fs)

/-- Writing a file: replace the content if the path exists, create the file
otherwise. -/
def setFile : FileSys → FsPath → Str → FileSys
  | [], p, content => [(p, content)]
  | e :: rest, p, content =>
    if e.1 = p then (p, content) :: rest else e :: setFile rest p content

/-- The mutable state owned by LocalStorage: the output tree and the
in-memory note index. -/
structure StoreState where
  fs : FileSys
  index : NoteIndex
  deriving DecidableEq, Repr

/-- Embedding of LocalStorage.get_note_path (storage.py lines 79-112):
derive the base path from team, folder and sanitized title; when a file
already exists there and the index attributes it to a different GUID
(or to none), append the identity-derived suffix; otherwise reuse the
base path. -/
def get_note_path (preserve : Bool) (st : StoreState) (team folder title guid : Str) :
    FsPath :=
  let p := note_base_path preserve team folder title
  if fileExists st.fs p then
    if get_note_guid_by_path st.index p ≠ some guid then
      suffixed_note_path preserve team folder title guid
    else p
  else p

/-- A note record, after the field-name normalization of downloader.py
lines 176-183 (docGuid/guid and dataModified/modified merged into one
canonical field each). -/
structure Note where
  guid : Str
  title : Str
  created : Option Str
  modified : Option Str
  tags : Option TagVal
  author : Option Str
  deriving DecidableEq, Repr

/-- Embedding of LocalStorage.save_note (storage.py lines 121-155): derive
the path, write the content, record the index entry (Python dict update).
Disk-write failures are outside the model, so the path is always returned. -/
def save_note (preserve : Bool) (st : StoreState) (team folder : Str) (note : Note)
    (content : Str) (fmt : Str) (now : Nat) : Option FsPath × StoreState :=
  let p := get_note_path preserve st team folder note.title note.guid
  let entry : IndexEntry :=
    { title := note.title
      file_path := p
      team := team
      folder := folder
      created := note.created
      modified := note.modified
      tags := note.tags.getD (TagVal.list [])
      format := fmt
      saved_at := now }
  (some p, { fs := setFile st.fs p content, index := setEntry st.index note.guid entry })

theorem splitExt_fst_append_snd (p : Str) : (splitExt p).1 ++ (splitExt p).2 = p := by
  unfold splitExt
  cases lastIdxOf '.' p with
  | none => simp
  | some d =>
    simp only
    split
    · exact List.take_append_drop d p
    · simp

theorem fsKeys_setFile_of_mem (fs : FileSys) (p : FsPath) (c : Str)
    (h : p ∈ fsKeys fs) : fsKeys (setFile fs p c) = fsKeys fs := by
  induction fs with
  | nil => simp [fsKeys] at h
  | cons e rest ih =>
    by_cases he : e.1 = p
    · simp [setFile, he, fsKeys]
    · have hrest : p ∈ fsKeys rest := by
        simp only [fsKeys, List.map_cons, List.mem_cons] at h
        rcases h with h0 | h0
        · exact absurd h0.symm he
        · exact h0
      have h2 := ih hrest
      simp only [setFile, fsKeys, List.map_cons]
      rw [if_neg he]
      simp only [List.map_cons]
      rw [show List.map Prod.fst (setFile rest p c) = fsKeys (setFile rest p c) from rfl, h2]
      rfl

/-- C2: with a file already at the computed path, (1) a first note is placed
at the base path when nothing occupies it; (2) a second note with the same
sanitized title in the same folder but a different identity is routed to a
distinct path carrying the first-8-characters-of-GUID suffix; (3) a note
whose identity the index records for the existing file reuses the original
path unchanged, so saving it again overwrites the same file and creates no
new path. -/
theorem c2_collision_disambiguation (preserve : Bool) (st : StoreState)
    (team folder title guid1 guid2 : Str) :
    (fileExists st.fs (note_base_path preserve team folder title) = false →
      get_note_path preserve st team folder title guid1 =
        note_base_path preserve team folder title) ∧
    (fileExists st.fs (note_base_path preserve team folder title) = true →
      get_note_guid_by_path st.index (note_base_path preserve team folder title) =
        some guid1 →
      guid1 ≠ guid2 →
      get_note_path preserve st team folder title guid2 =
        suffixed_note_path preserve team folder title guid2 ∧
      suffixed_note_path preserve team folder title guid2 ≠
        note_base_path preserve team folder title) ∧
    (fileExists st.fs (note_base_path preserve team folder title) = true →
      get_note_guid_by_path st.index (note_base_path preserve team folder title) =
        some guid2 →
      get_note_path preserve st team folder title guid2 =
        note_base_path preserve team folder title ∧
      (∀ note content fmt now, Note.title note = title → Note.guid note = guid2 →
        fsKeys (save_note preserve st team folder note content fmt now).2.fs =
          fsKeys st.fs)) := by
  refine ⟨?_, ?_, ?_⟩
  · intro hex
    simp [get_note_path, hex]
  · intro hex hguid hne
    constructor
    · simp [get_note_path, hex, hguid, Ne, hne]
    · intro heq
      simp only [suffixed_note_path, note_base_path] at heq
      have h1 : (splitExt (note_filename title)).1 ++ "_".data ++ List.take 8 guid2 ++
          (splitExt (note_filename title)).2 = note_filename title := by
        have h2 := List.append_cancel_left heq
        exact (List.cons.inj h2).1
      have h3 := congrArg List.length h1
      have h4 := congrArg List.length (splitExt_fst_append_snd (note_filename title))
      simp only [List.length_append, List.length_singleton] at h3 h4
      omega
  · intro hex hguid
    have hpath : get_note_path preserve st team folder title guid2 =
        note_base_path preserve team folder title := by
      simp [get_note_path, hex, hguid]
    refine ⟨hpath, ?_⟩
    intro note content fmt now ht hg
    have hmem : note_base_path preserve team folder title ∈ fsKeys st.fs := by
      have := of_decide_eq_true hex
      exact this
    simp only [save_note, ht, hg, hpath]
    exact fsKeys_setFile_of_mem st.fs _ content hmem

/-- Witness for C2 at concrete inputs: a one-file tree whose index records
the file for identity aaaa1111; identity bbbb2222 is suffixed and distinct,
while identity aaaa1111 reuses the path. -/
theorem c2_collision_disambiguation_witness :
    (get_note_path true
        { fs := [(note_base_path true "T".data "/W".data "Note".data, "x".data)]
          index := [("aaaa1111".data,
            { sampleEntry with
                file_path := note_base_path true "T".data "/W".data "Note".data })] }
        "T".data "/W".data "Note".data "bbbb2222".data =
      suffixed_note_path true "T".data "/W".data "Note".data "bbbb2222".data ∧
      suffixed_note_path true "T".data "/W".data "Note".data "bbbb2222".data ≠
        note_base_path true "T".data "/W".data "Note".data) ∧
    get_note_path true
        { fs := [(note_base_path true "T".data "/W".data "Note".data, "x".data)]
          index := [("aaaa1111".data,
            { sampleEntry with
                file_path := note_base_path true "T".data "/W".data "Note".data })] }
        "T".data "/W".data "Note".data "aaaa1111".data =
      note_base_path true "T".data "/W".data "Note".data := by
  constructor
  · exact (c2_collision_disambiguation true _ "T".data "/W".data "Note".data
      "aaaa1111".data "bbbb2222".data).2.1 (by decide) (by decide) (by decide)
  · exact ((c2_collision_disambiguation true _ "T".data "/W".data "Note".data
      "bbbb2222".data "aaaa1111".data).2.2 (by decide) (by decide)).1

/-- Decimal digit character, as produced by Python decimal formatting. -/
def digitCh (d : Nat) : Char :=
  match d with
  | 0 => '0' | 1 => '1' | 2 => '2' | 3 => '3' | 4 => '4'
  | 5 => '5' | 6 => '6' | 7 => '7' | 8 => '8' | 9 => '9'
  | _ => 'x'

/-- Fuel-driven most-significant-first digit expansion; the fuel bounds the
number of divisions by ten and any fuel at least n suffices. -/
def natStrAux : Nat → Nat → Str
  | _, 0 => []
  | 0, _ + 1 => []
  | fuel + 1, n + 1 => natStrAux fuel ((n + 1) / 10) ++ [digitCh ((n + 1) % 10)]

/-- Decimal rendering of a natural number, as the f-string interpolation of
the collision counter in storage.py line 179 produces it. -/
def natStr (n : Nat) : Str := if n = 0 then "0".data else natStrAux n n

/-- Numeric value of a digit character (inverse of digitCh on digits). -/
def dVal (c : Char) : Nat :=
  match c with
  | '0' => 0 | '1' => 1 | '2' => 2 | '3' => 3 | '4' => 4
  | '5' => 5 | '6' => 6 | '7' => 7 | '8' => 8 | '9' => 9
  | _ => 0

/-- Value read back from a digit string. -/
def strVal (l : Str) : Nat := l.foldl (fun a c => a * 10 + dVal c) 0

theorem dVal_digitCh (d : Nat) (h : d < 10) : dVal (digitCh d) = d := by
  interval_cases d <;> rfl

theorem strVal_append_digit (xs : Str) (c : Char) :
    strVal (xs ++ [c]) = strVal xs * 10 + dVal c := by
  simp [strVal, List.foldl_append]

theorem natStrAux_zero (fuel : Nat) : natStrAux fuel 0 = [] := by
  cases fuel <;> rfl

theorem strVal_natStrAux (fuel : Nat) : ∀ n, 0 < n → n ≤ fuel →
    strVal (natStrAux fuel n) = n := by
  induction fuel with
  | zero => intro n hn hle; omega
  | succ f ih =>
    intro n hn hle
    match n, hn with
    | m + 1, _ =>
      show strVal (natStrAux f ((m + 1) / 10) ++ [digitCh ((m + 1) % 10)]) = m + 1
      rw [strVal_append_digit, dVal_digitCh ((m + 1) % 10) (Nat.mod_lt _ (by norm_num))]
      rcases Nat.eq_zero_or_pos ((m + 1) / 10) with hq | hq
      · rw [hq, natStrAux_zero]
        have := Nat.div_add_mod (m + 1) 10
        simp only [strVal, List.foldl_nil]
        omega
      · have hlt : (m + 1) / 10 < m + 1 := Nat.div_lt_self (Nat.succ_pos m) (by norm_num)
        rw [ih ((m + 1) / 10) hq (by omega)]
        have := Nat.div_add_mod (m + 1) 10
        omega

theorem strVal_natStr (n : Nat) : strVal (natStr n) = n := by
  by_cases h : n = 0
  · simp [natStr, h, strVal, dVal]
  · rw [natStr, if_neg h]
    exact strVal_natStrAux n n (Nat.pos_of_ne_zero h) le_rfl

theorem natStr_inj (m n : Nat) (h : natStr m = natStr n) : m = n := by
  have := congrArg strVal h
  rwa [strVal_natStr, strVal_natStr] at this

/-- Embedding of LocalStorage.get_attachment_dir (storage.py lines 157-160):
the assets directory beside the note file. -/
def get_attachment_dir (note_path : FsPath) : FsPath :=
  note_path.dropLast ++ ["assets".data]

/-- The k-th collision candidate produced by the while loop of storage.py
lines 175-180: stem, underscore, decimal counter, extension. -/
def attachment_candidate (dir : FsPath) (stem ext : Str) (k : Nat) : FsPath :=
  dir ++ [stem ++ "_".data ++ natStr k ++ ext]

/-- The collision loop of storage.py lines 175-180, with explicit fuel.
The loop terminates because the directory holds finitely many files;
fuel fs.length + 1 is shown sufficient below (the returned path is free). -/
def find_free_suffix (fs : FileSys) (dir : FsPath) (stem ext : Str) : Nat → Nat → FsPath
  | 0, k => attachment_candidate dir stem ext k
  | fuel + 1, k =>
    if fileExists fs (attachment_candidate dir stem ext k) then
      find_free_suffix fs dir stem ext fuel (k + 1)
    else attachment_candidate dir stem ext k

/-- Embedding of LocalStorage.save_attachment (storage.py lines 162-191):
sanitize the attachment name, place it in the assets directory beside the
note, and on a name collision walk numeric suffixes name_1, name_2, ...
until a non-existing path is found; then write the content there. -/
def save_attachment (fs : FileSys) (note_path : FsPath) (name content : Str) :
    FsPath × FileSys :=
  let dir := get_attachment_dir note_path
  let safe := sanitize_filename name
  let p := dir ++ [safe]
  let target :=
    if fileExists fs p then
      find_free_suffix fs dir (splitExt safe).1 (splitExt safe).2 (fs.length + 1) 1
    else p
  (target, setFile fs target content)

theorem attachment_candidate_inj (dir : FsPath) (stem ext : Str) (j k : Nat)
    (h : attachment_candidate dir stem ext j = attachment_candidate dir stem ext k) :
    j = k := by
  unfold attachment_candidate at h
  have h1 := List.append_cancel_left h
  have h2 := (List.cons.inj h1).1
  have h3 := List.append_cancel_right h2
  have h4 := List.append_cancel_left h3
  exact natStr_inj j k h4

theorem exists_free_candidate (keys : List FsPath) (dir : FsPath) (stem ext : Str)
    (k0 : Nat) :
    ∃ j, k0 ≤ j ∧ j < k0 + keys.length + 1 ∧
      attachment_candidate dir stem ext j ∉ keys := by
  by_contra hcon
  push_neg at hcon
  have hinj : Function.Injective (fun i : Nat => attachment_candidate dir stem ext (k0 + i)) := by
    intro a b hab
    have := attachment_candidate_inj dir stem ext (k0 + a) (k0 + b) hab
    omega
  have hnodup : ((List.range (keys.length + 1)).map
      (fun i => attachment_candidate dir stem ext (k0 + i))).Nodup :=
    List.Nodup.map hinj (List.nodup_range (keys.length + 1))
  have hsub : ((List.range (keys.length + 1)).map
      (fun i => attachment_candidate dir stem ext (k0 + i))).toFinset ⊆ keys.toFinset := by
    intro x hx
    rw [List.mem_toFinset] at hx
    rw [List.mem_toFinset]
    simp only [List.mem_map, List.mem_range] at hx
    obtain ⟨i, hi, rfl⟩ := hx
    exact hcon (k0 + i) (by omega) (by omega)
  have h1 := List.toFinset_card_of_nodup hnodup
  have h2 := Finset.card_le_card hsub
  have h3 := keys.toFinset_card_le
  simp only [List.length_map, List.length_range] at h1
  omega

theorem find_free_suffix_spec (fs : FileSys) (dir : FsPath) (stem ext : Str) :
    ∀ fuel k0,
    (∃ j, k0 ≤ j ∧ j < k0 + fuel ∧ attachment_candidate dir stem ext j ∉ fsKeys fs) →
    ∃ k, k0 ≤ k ∧
      find_free_suffix fs dir stem ext fuel k0 = attachment_candidate dir stem ext k ∧
      attachment_candidate dir stem ext k ∉ fsKeys fs ∧
      ∀ j, k0 ≤ j → j < k → attachment_candidate dir stem ext j ∈ fsKeys fs := by
  intro fuel
  induction fuel with
  | zero =>
    rintro k0 ⟨j, hj1, hj2, _⟩
    omega
  | succ f ih =>
    rintro k0 ⟨j, hj1, hj2, hjfree⟩
    by_cases hex : fileExists fs (attachment_candidate dir stem ext k0) = true
    · have hk0 : attachment_candidate dir stem ext k0 ∈ fsKeys fs := of_decide_eq_true hex
      have hjne : j ≠ k0 := by
        rintro rfl
        exact hjfree hk0
      obtain ⟨k, hk1, hk2, hk3, hk4⟩ := ih (k0 + 1) ⟨j, by omega, by omega, hjfree⟩
      refine ⟨k, by omega, ?_, hk3, ?_⟩
      · rw [show find_free_suffix fs dir stem ext (f + 1) k0 =
            find_free_suffix fs dir stem ext f (k0 + 1) from by
          simp [find_free_suffix, hex]]
        exact hk2
      · intro i hi1 hi2
        by_cases hik : i = k0
        · rw [hik]
          exact hk0
        · exact hk4 i (by omega) hi2
    · have hfree : attachment_candidate dir stem ext k0 ∉ fsKeys fs := by
        intro hmem
        exact hex (decide_eq_true hmem)
      refine ⟨k0, le_rfl, ?_, hfree, ?_⟩
      · simp [find_free_suffix, hex]
      · intro i hi1 hi2
        omega

/-- C9: save_attachment never overwrites an existing file: the chosen path
is never an existing key (first conjunct); the chosen path does not depend
on the content being written (second conjunct); and when the sanitized
base path already exists, the chosen path carries the smallest positive
numeric suffix whose path does not yet exist (third conjunct). -/
theorem c9_save_attachment_no_overwrite (fs : FileSys) (note_path : FsPath)
    (name content : Str) :
    (save_attachment fs note_path name content).1 ∉ fsKeys fs ∧
    (∀ c2, (save_attachment fs note_path name c2).1 =
      (save_attachment fs note_path name content).1) ∧
    (fileExists fs (get_attachment_dir note_path ++ [sanitize_filename name]) = true →
      ∃ k, 1 ≤ k ∧
        (save_attachment fs note_path name content).1 =
          attachment_candidate (get_attachment_dir note_path)
            (splitExt (sanitize_filename name)).1 (splitExt (sanitize_filename name)).2 k ∧
        ∀ j, 1 ≤ j → j < k →
          attachment_candidate (get_attachment_dir note_path)
            (splitExt (sanitize_filename name)).1 (splitExt (sanitize_filename name)).2 j ∈
            fsKeys fs) := by
  have hkeyslen : (fsKeys fs).length = fs.length := List.length_map _ _
  by_cases hbase : fileExists fs (get_attachment_dir note_path ++ [sanitize_filename name]) = true
  · obtain ⟨j, hj1, hj2, hjfree⟩ := exists_free_candidate (fsKeys fs)
      (get_attachment_dir note_path) (splitExt (sanitize_filename name)).1
      (splitExt (sanitize_filename name)).2 1
    obtain ⟨k, hk1, hk2, hk3, hk4⟩ := find_free_suffix_spec fs
      (get_attachment_dir note_path) (splitExt (sanitize_filename name)).1
      (splitExt (sanitize_filename name)).2 (fs.length + 1) 1
      ⟨j, hj1, by omega, hjfree⟩
    have htarget : (save_attachment fs note_path name content).1 =
        find_free_suffix fs (get_attachment_dir note_path)
          (splitExt (sanitize_filename name)).1 (splitExt (sanitize_filename name)).2
          (fs.length + 1) 1 := by
      simp [save_attachment, hbase]
    refine ⟨?_, ?_, ?_⟩
    · rw [htarget, hk2]
      exact hk3
    · intro c2
      simp [save_attachment]
    · intro _
      exact ⟨k, hk1, by rw [htarget, hk2], hk4⟩
  · have hfree : (get_attachment_dir note_path ++ [sanitize_filename name]) ∉ fsKeys fs := by
      intro hmem
      exact hbase (decide_eq_true hmem)
    have htarget : (save_attachment fs note_path name content).1 =
        get_attachment_dir note_path ++ [sanitize_filename name] := by
      simp [save_attachment, hbase]
    refine ⟨?_, ?_, ?_⟩
    · rw [htarget]
      exact hfree
    · intro c2
      simp [save_attachment]
    · intro hcon
      exact absurd hcon hbase

/-- Witness for C9 at a concrete tree: assets already holds a.txt and
a_1.txt, so the attachment is routed to suffix 2 and suffix 1 is occupied. -/
theorem c9_save_attachment_no_overwrite_witness :
    (save_attachment
        [(["T".data, "assets".data, "a.txt".data], "old".data),
         (["T".data, "assets".data, "a_1.txt".data], "old1".data)]
        ["T".data, "n.md".data] "a.txt".data "new".data).1 ∉
      fsKeys [(["T".data, "assets".data, "a.txt".data], "old".data),
              (["T".data, "assets".data, "a_1.txt".data], "old1".data)] ∧
    ∃ k, 1 ≤ k ∧
      (save_attachment
          [(["T".data, "assets".data, "a.txt".data], "old".data),
           (["T".data, "assets".data, "a_1.txt".data], "old1".data)]
          ["T".data, "n.md".data] "a.txt".data "new".data).1 =
        attachment_candidate (get_attachment_dir ["T".data, "n.md".data])
          (splitExt (sanitize_filename "a.txt".data)).1
          (splitExt (sanitize_filename "a.txt".data)).2 k ∧
      ∀ j, 1 ≤ j → j < k →
        attachment_candidate (get_attachment_dir ["T".data, "n.md".data])
          (splitExt (sanitize_filename "a.txt".data)).1
          (splitExt (sanitize_filename "a.txt".data)).2 j ∈
          fsKeys [(["T".data, "assets".data, "a.txt".data], "old".data),
                  (["T".data, "assets".data, "a_1.txt".data], "old1".data)] := by
  constructor
  · exact (c9_save_attachment_no_overwrite _ _ "a.txt".data "new".data).1
  · exact (c9_save_attachment_no_overwrite _ _ "a.txt".data "new".data).2.2 (by decide)

/- Converter embedding (src/webapi-export/src/converter.py). The external
libraries html2text and BeautifulSoup are modelled as abstract pure
functions where their output matters; the repository's own logic (data-URI
parsing, hashing-based filenames, post-processing, metadata) is embedded
concretely. -/

/-- Kinds of extracted resources produced by _preprocess_html: decoded
base64 images versus references to locally bundled resources. -/
inductive ExtractedResource where
  | base64Img (filename : Str) (data : List Nat) (image_type : Str)
  | resourceRef (filename : Str) (original_src : Str)
  deriving DecidableEq, Repr

/-- The filename field shared by both resource dict shapes. -/
def ExtractedResource.filename : ExtractedResource → Str
  | ExtractedResource.base64Img f _ _ => f
  | ExtractedResource.resourceRef f _ => f

/-- Prefix test, mirroring Python str.startswith and anchored regex
matching. -/
def startsWithStr : Str → Str → Bool
  | [], _ => true
  | _ :: _, [] => false
  | p :: ps, c :: cs => p == c && startsWithStr ps cs

/-- Word character of the regex class backslash-w (ASCII reading:
alphanumeric or underscore). -/
def isWordChar (c : Char) : Bool := c.isAlphanum || c == '_'

/-- Embedding of the anchored regex match of converter.py line 147,
pattern data:image/(w+);base64,(.+) — returns (image type, base64 payload).
The dot excludes newlines, so the payload is the non-empty run up to the
first newline; the word-class run cannot backtrack because the following
literal starts with a semicolon, which is not a word character. -/
def parseDataUri (uri : Str) : Option (Str × Str) :=
  if startsWithStr "data:image/".data uri then
    let rest := uri.drop 11
    let ty := rest.takeWhile isWordChar
    let rest2 := rest.drop ty.length
    if ty ≠ [] ∧ startsWithStr ";base64,".data rest2 then
      let payload := (rest2.drop 8).takeWhile (fun c => c ≠ '\n')
      if payload ≠ [] then some (ty, payload) else none
    else none
  else none

/-- Embedding of HTMLToMarkdownConverter._extract_base64_image
(converter.py lines 143-171), parameterized by the external library
functions base64.b64decode (which may fail: failures are caught and turn
into None) and hashlib.md5(...).hexdigest(). The derived filename is
image_ followed by the first 8 characters of the hex digest of the decoded
bytes and the media type as extension. -/
def extract_base64_image (b64decode : Str → Option (List Nat))
    (md5hex : List Nat → Str) (uri : Str) : Option ExtractedResource :=
  match parseDataUri uri with
  | none => none
  | some (ty, payload) =>
    match b64decode payload with
    | none => none
    | some bytes =>
      some (ExtractedResource.base64Img
        ("image_".data ++ (md5hex bytes).take 8 ++ ".".data ++ ty) bytes ty)

/-- C6: the extracted filename is a pure function of the decoded bytes and
the media type: two data URIs carrying the same media type and the same
base64 payload (in any note, in any run — the function takes no note or
run context) yield identical extraction results, and the filename is
exactly image_ + hexdigest(bytes)[:8] + dot + media type. -/
theorem c6_content_addressed_filename (b64decode : Str → Option (List Nat))
    (md5hex : List Nat → Str) (u1 u2 : Str) (ty payload : Str)
    (h1 : parseDataUri u1 = some (ty, payload))
    (h2 : parseDataUri u2 = some (ty, payload)) :
    extract_base64_image b64decode md5hex u1 =
      extract_base64_image b64decode md5hex u2 ∧
    (∀ bytes, b64decode payload = some bytes →
      (extract_base64_image b64decode md5hex u1).map ExtractedResource.filename =
        some ("image_".data ++ (md5hex bytes).take 8 ++ ".".data ++ ty)) := by
  constructor
  · simp [extract_base64_image, h1, h2]
  · intro bytes hb
    simp [extract_base64_image, h1, hb, ExtractedResource.filename]

/-- Witness for C6: two concrete URIs with identical payload AAAA and type
png, under concrete stand-ins for the decode and hash functions. -/
theorem c6_content_addressed_filename_witness :
    (extract_base64_image (fun _ => some [0, 0, 0]) (fun _ => "0123456789abcdef".data)
        "data:image/png;base64,AAAA".data =
      extract_base64_image (fun _ => some [0, 0, 0]) (fun _ => "0123456789abcdef".data)
        "data:image/png;base64,AAAA".data) ∧
    (extract_base64_image (fun _ => some [0, 0, 0]) (fun _ => "0123456789abcdef".data)
        "data:image/png;base64,AAAA".data).map ExtractedResource.filename =
      some ("image_".data ++ ("0123456789abcdef".data).take 8 ++ ".".data ++ "png".data) := by
  constructor
  · exact (c6_content_addressed_filename (fun _ => some [0, 0, 0])
      (fun _ => "0123456789abcdef".data) "data:image/png;base64,AAAA".data
      "data:image/png;base64,AAAA".data "png".data "AAAA".data
      (by decide) (by decide)).1
  · exact (c6_content_addressed_filename (fun _ => some [0, 0, 0])
      (fun _ => "0123456789abcdef".data) "data:image/png;base64,AAAA".data
      "data:image/png;base64,AAAA".data "png".data "AAAA".data
      (by decide) (by decide)).2 [0, 0, 0] rfl

/-- The deterministic fallback document of HTMLToMarkdownConverter.convert
(converter.py line 70): title heading, a fixed notice, and the original
markup verbatim inside a fenced html code block. -/
def convert_fallback (note : Note) (html : Str) : Str :=
  "# ".data ++ note.title ++ "\n\n转换失败，以下为原始HTML：\n\n```html\n".data ++
    html ++ "\n```".data

/-- Embedding of HTMLToMarkdownConverter.convert (converter.py lines
36-70). The try block (preprocess, html2text, postprocess, metadata) is
abstracted as one fallible computation; convert catches any failure and
returns the fallback document together with an empty resource list, so it
is a total function — it never raises to its caller. -/
def convert (pipeline : Except Str (Str × List ExtractedResource)) (note : Note)
    (html : Str) : Str × List ExtractedResource :=
  match pipeline with
  | Except.ok r => r
  | Except.error _ => (convert_fallback note html, [])

/-- C3: convert is total over every internal outcome (first conjunct: the
successful branch returns the computed pair); on any internal failure it
returns exactly the fallback document and an empty media list (second
conjunct); and the fallback is the note title as a heading followed by a
fenced block containing the original markup verbatim, hence non-empty
(remaining conjuncts). -/
theorem c3_convert_never_raises (e : Str) (note : Note) (html : Str) :
    (∀ r, convert (Except.ok r) note html = r) ∧
    convert (Except.error e) note html = (convert_fallback note html, []) ∧
    convert_fallback note html =
      ("# ".data ++ note.title) ++ ("\n\n转换失败，以下为原始HTML：\n\n".data ++
        ("```html\n".data ++ html ++ "\n```".data)) ∧
    convert_fallback note html ≠ [] := by
  refine ⟨fun r => rfl, rfl, ?_, ?_⟩
  · simp only [convert_fallback, List.append_assoc, List.cons_append, List.nil_append]
  · intro h
    simp [convert_fallback] at h

/-- Python truthiness of an optional string field (absent or empty is
falsy), as used by the if note_info.get(...) guards. -/
def truthyStr : Option Str → Bool
  | none => false
  | some s => !s.isEmpty

/-- Python truthiness of the optional tags field: absent, an empty list or
an empty string are falsy. -/
def truthyTags : Option TagVal → Bool
  | none => false
  | some (TagVal.list ts) => !ts.isEmpty
  | some (TagVal.single t) => !t.isEmpty

/-- Python sep.join over a list of strings. -/
def joinWith (sep : Str) : List Str → Str
  | [] => []
  | [x] => x
  | x :: y :: xs => x ++ sep ++ joinWith sep (y :: xs)

/-- The bracketed tag rendering of converter.py lines 205-210: a list is
comma-joined, a single string is wrapped as a one-element list. -/
def tagsRendered : TagVal → Str
  | TagVal.list ts => "[".data ++ joinWith ", ".data ts ++ "]".data
  | TagVal.single t => "[".data ++ t ++ "]".data

/-- Newline-join over lines, mirroring a backslash-n join. -/
def joinNl : List Str → Str
  | [] => []
  | [l] => l
  | l :: l2 :: ls => l ++ '\n' :: joinNl (l2 :: ls)

/-- The metadata lines built by HTMLToMarkdownConverter._add_metadata
(converter.py lines 193-218): delimiters, title, then created, modified,
tags and author whenever the field is truthy, and a trailing empty line. -/
def html_metadata_lines (note : Note) : List Str :=
  "---".data :: ("title: ".data ++ note.title) ::
  ((if truthyStr note.created then ["created: ".data ++ note.created.getD []] else []) ++
   (if truthyStr note.modified then ["modified: ".data ++ note.modified.getD []] else []) ++
   (if truthyTags note.tags then
      ["tags: ".data ++ tagsRendered (note.tags.getD (TagVal.list []))] else []) ++
   (if truthyStr note.author then ["author: ".data ++ note.author.getD []] else []) ++
   ["---".data, []])

/-- Embedding of HTMLToMarkdownConverter._add_metadata: the front-matter
block is prepended unconditionally — there is no check whether the content
already starts with a front-matter delimiter. -/
def html_add_metadata (note : Note) (content : Str) : Str :=
  joinNl (html_metadata_lines note) ++ content

/-- The metadata lines built by DirectMarkdownHandler._add_metadata
(converter.py lines 285-312); unlike the HTML variant it carries no author
line. -/
def direct_metadata_lines (note : Note) : List Str :=
  "---".data :: ("title: ".data ++ note.title) ::
  ((if truthyStr note.created then ["created: ".data ++ note.created.getD []] else []) ++
   (if truthyStr note.modified then ["modified: ".data ++ note.modified.getD []] else []) ++
   (if truthyTags note.tags then
      ["tags: ".data ++ tagsRendered (note.tags.getD (TagVal.list []))] else []) ++
   ["---".data, []])

/-- Embedding of DirectMarkdownHandler._add_metadata: a document that
already starts with a front-matter delimiter line is returned untouched
(converter.py lines 288-290); otherwise the block is prepended. -/
def direct_add_metadata (note : Note) (content : Str) : Str :=
  if startsWithStr "---\n".data content then content
  else joinNl (direct_metadata_lines note) ++ content

/-- C10: the HTML conversion path prepends the (non-empty) YAML
front-matter block to every content string, including one that already
begins with the delimiter, whereas the pass-through Markdown handler
returns a delimiter-prefixed document untouched. -/
theorem c10_metadata_prepend_asymmetry (note : Note) (content : Str) :
    (html_add_metadata note content =
      joinNl (html_metadata_lines note) ++ content ∧
      joinNl (html_metadata_lines note) ≠ []) ∧
    (startsWithStr "---\n".data content = true →
      direct_add_metadata note content = content) := by
  refine ⟨⟨rfl, ?_⟩, ?_⟩
  · intro h
    simp only [html_metadata_lines, joinNl] at h
    simp at h
  · intro h
    simp [direct_add_metadata, h]

/-- Witness for C10 at a concrete delimiter-prefixed document: the direct
handler leaves it untouched while the HTML path still prepends. -/
theorem c10_metadata_prepend_asymmetry_witness :
    direct_add_metadata
      { guid := "g".data, title := "t".data, created := none, modified := none,
        tags := none, author := none } "---\ntitle: old\n---\nbody\n".data =
      "---\ntitle: old\n---\nbody\n".data ∧
    html_add_metadata
      { guid := "g".data, title := "t".data, created := none, modified := none,
        tags := none, author := none } "---\ntitle: old\n---\nbody\n".data =
      joinNl (html_metadata_lines
        { guid := "g".data, title := "t".data, created := none, modified := none,
          tags := none, author := none }) ++ "---\ntitle: old\n---\nbody\n".data := by
  constructor
  · exact (c10_metadata_prepend_asymmetry _ "---\ntitle: old\n---\nbody\n".data).2
      (by decide)
  · exact (c10_metadata_prepend_asymmetry _ "---\ntitle: old\n---\nbody\n".data).1.1

/-- Whitespace for Python str.rstrip() with no argument: ASCII whitespace,
the C1 separators, and the Unicode space characters. -/
def pyIsSpace (c : Char) : Bool :=
  c == ' ' || c == '\t' || c == '\n' || c == '\r' || c == '\x0b' || c == '\x0c' ||
  c == '\x1c' || c == '\x1d' || c == '\x1e' || c == '\x1f' || c == '\x85' ||
  c == '\xa0' || c == ' ' || (' ' ≤ c && c ≤ ' ') ||
  c == ' ' || c == ' ' || c == ' ' || c == ' ' || c == '　'

/-- Python line.rstrip(): drop trailing whitespace. -/
def rstrip (l : Str) : Str := (l.reverse.dropWhile pyIsSpace).reverse

/-- What the substitution of converter.py line 176 emits for a maximal run
of k consecutive newlines: two newlines when the regex backslash-n-three-
or-more matched (k at least 3), the run unchanged otherwise. -/
def emitNlRun (k : Nat) : Str := if 3 ≤ k then ['\n', '\n'] else List.replicate k '\n'

/-- State-machine embedding of re.sub collapsing runs of three or more
newlines to two (converter.py line 176); k counts the newlines of the
current run. -/
def collapseNlAux : Nat → Str → Str
  | k, [] => emitNlRun k
  | k, c :: rest =>
    if c = '\n' then collapseNlAux (k + 1) rest
    else emitNlRun k ++ c :: collapseNlAux 0 rest

/-- The blank-line collapsing step (converter.py line 176). -/
def collapseNl (s : Str) : Str := collapseNlAux 0 s

/-- Fuel-driven replacement of every non-overlapping occurrence of a
literal pattern, left to right, continuing after the replacement —
the semantics of re.sub with a literal pattern. Fuel s.length suffices
since every step consumes at least one input character. -/
def replaceAllAux (pat rep : Str) : Nat → Str → Str
  | 0, s => s
  | fuel + 1, s =>
    if pat ≠ [] ∧ startsWithStr pat s then
      rep ++ replaceAllAux pat rep fuel (s.drop pat.length)
    else
      match s with
      | [] => []
      | c :: rest => c :: replaceAllAux pat rep fuel rest

/-- re.sub with a literal pattern and literal replacement. -/
def replaceAll (pat rep s : Str) : Str := replaceAllAux pat rep s.length s

/-- Embedding of HTMLToMarkdownConverter._postprocess_markdown
(converter.py lines 173-191), in source order: collapse newline runs, fix
blank lines at fence boundaries, strip trailing whitespace from every
line, then append a final newline when the text does not end with one. -/
def postprocess_markdown (s : Str) : Str :=
  let s1 := collapseNl s
  let s2 := replaceAll "```\n\n".data "```\n".data s1
  let s3 := replaceAll "\n\n```".data "\n```".data s2
  let s4 := joinNl ((splitOnChar '\n' s3).map rstrip)
  if s4.getLast? = some '\n' then s4 else s4 ++ ['\n']

/-- True when the text contains no three consecutive newline characters
(three consecutive newlines delimit two consecutive blank lines). -/
def noTriple : Str → Bool
  | c1 :: c2 :: c3 :: rest =>
    !(c1 == '\n' && c2 == '\n' && c3 == '\n') && noTriple (c2 :: c3 :: rest)
  | _ => true

/-- True when every line of the text carries no trailing whitespace. -/
def linesRstripped (s : Str) : Bool :=
  (splitOnChar '\n' s).all (fun l => rstrip l == l)

/-- Substring occurrence test. -/
def containsSeq (pat : Str) : Str → Bool
  | [] => startsWithStr pat []
  | c :: rest => startsWithStr pat (c :: rest) || containsSeq pat rest

/-- C7 counterexample: the claim fails as stated. On input
a, three whitespace-only lines, b, and a trailing blank line, the
whitespace-only lines are trimmed only after newline-collapsing ran, so
the output contains a run of three blank lines (four consecutive
newlines), and the trailing blank line of the input survives, so the
output ends with two newlines rather than exactly one. -/
theorem c7_postprocess_counterexample :
    postprocess_markdown "a\n \n \n \nb\n\n".data = "a\n\n\n\nb\n\n".data ∧
    containsSeq "\n\n\n\n".data (postprocess_markdown "a\n \n \n \nb\n\n".data) = true ∧
    (postprocess_markdown "a\n \n \n \nb\n\n".data).getLast? = some '\n' ∧
    (postprocess_markdown "a\n \n \n \nb\n\n".data).dropLast.getLast? = some '\n' := by
  refine ⟨by decide, by decide, by decide, by decide⟩

theorem noTriple_cons3 (c1 c2 c3 : Char) (r : Str) :
    noTriple (c1 :: c2 :: c3 :: r) =
      (!(c1 == '\n' && c2 == '\n' && c3 == '\n') && noTriple (c2 :: c3 :: r)) := rfl

theorem noTriple_emitNlRun (k : Nat) : noTriple (emitNlRun k) = true := by
  unfold emitNlRun
  split
  · rfl
  · rename_i h
    have hk : k < 3 := by omega
    interval_cases k <;> rfl

theorem noTriple_cons_of_ne (c : Char) (X : Str) (hc : ¬ c = '\n')
    (hX : noTriple X = true) : noTriple (c :: X) = true := by
  have hcb : (c == '\n') = false := by simp [hc]
  match X with
  | [] => rfl
  | [x] => rfl
  | x1 :: x2 :: xs =>
    rw [noTriple_cons3]
    simp [hcb, hX]

theorem noTriple_one_nl (c : Char) (X : Str) (hc : ¬ c = '\n')
    (hX : noTriple (c :: X) = true) : noTriple ('\n' :: c :: X) = true := by
  have hcb : (c == '\n') = false := by simp [hc]
  match X with
  | [] => rfl
  | x :: xs =>
    rw [noTriple_cons3]
    simp [hcb, hX]

theorem noTriple_two_nl (c : Char) (X : Str) (hc : ¬ c = '\n')
    (hX : noTriple (c :: X) = true) : noTriple ('\n' :: '\n' :: c :: X) = true := by
  have hcb : (c == '\n') = false := by simp [hc]
  rw [noTriple_cons3]
  simp [hcb, noTriple_one_nl c X hc hX]

theorem noTriple_prepend_run (k : Nat) (c : Char) (X : Str) (hc : ¬ c = '\n')
    (hX : noTriple (c :: X) = true) :
    noTriple (emitNlRun k ++ c :: X) = true := by
  unfold emitNlRun
  split
  · exact noTriple_two_nl c X hc hX
  · rename_i h
    have hk : k < 3 := by omega
    interval_cases k
    · simpa using hX
    · simpa using noTriple_one_nl c X hc hX
    · simpa using noTriple_two_nl c X hc hX

theorem noTriple_collapseNlAux (s : Str) : ∀ k, noTriple (collapseNlAux k s) = true := by
  induction s with
  | nil => intro k; exact noTriple_emitNlRun k
  | cons c rest ih =>
    intro k
    by_cases hc : c = '\n'
    · rw [show collapseNlAux k (c :: rest) = collapseNlAux (k + 1) rest from by
        simp [collapseNlAux, hc]]
      exact ih (k + 1)
    · rw [show collapseNlAux k (c :: rest) = emitNlRun k ++ c :: collapseNlAux 0 rest from by
        simp [collapseNlAux, hc]]
      exact noTriple_prepend_run k c _ hc (noTriple_cons_of_ne c _ hc (ih 0))

theorem noTriple_collapseNl (s : Str) : noTriple (collapseNl s) = true :=
  noTriple_collapseNlAux s 0

theorem splitOnChar_ne_nil (sep : Char) (s : Str) : splitOnChar sep s ≠ [] := by
  induction s with
  | nil => simp [splitOnChar]
  | cons c rest ih =>
    by_cases hc : c = sep
    · simp [splitOnChar, hc]
    · simp only [splitOnChar, if_neg hc]
      cases hsp : splitOnChar sep rest with
      | nil => simp
      | cons h t => simp

theorem not_mem_of_mem_splitOnChar (sep : Char) (s : Str) :
    ∀ l ∈ splitOnChar sep s, sep ∉ l := by
  induction s with
  | nil =>
    intro l hl
    simp [splitOnChar] at hl
    subst hl
    simp
  | cons c rest ih =>
    intro l hl
    by_cases hc : c = sep
    · simp only [splitOnChar, if_pos hc, List.mem_cons] at hl
      rcases hl with rfl | hl
      · simp
      · exact ih l hl
    · simp only [splitOnChar, if_neg hc] at hl
      cases hsp : splitOnChar sep rest with
      | nil => exact absurd hsp (splitOnChar_ne_nil sep rest)
      | cons h t =>
        rw [hsp] at hl
        simp only [List.mem_cons] at hl
        rcases hl with rfl | hl
        · intro hmem
          rcases List.mem_cons.mp hmem with heq | hmem2
          · exact hc heq.symm
          · exact ih h (by rw [hsp]; exact List.mem_cons_self h t) hmem2
        · exact ih l (by rw [hsp]; exact List.mem_cons_of_mem h hl)

theorem splitOnChar_no_sep (sep : Char) (x : Str) (hx : sep ∉ x) :
    splitOnChar sep x = [x] := by
  induction x with
  | nil => rfl
  | cons c rest ih =>
    have hc : ¬ c = sep := by
      intro h
      exact hx (by rw [h]; exact List.mem_cons_self _ _)
    have hrest : sep ∉ rest := fun h => hx (List.mem_cons_of_mem _ h)
    simp only [splitOnChar, if_neg hc, ih hrest]

theorem splitOnChar_append_sep (sep : Char) (x t : Str) (hx : sep ∉ x) :
    splitOnChar sep (x ++ sep :: t) = x :: splitOnChar sep t := by
  induction x with
  | nil => simp [splitOnChar]
  | cons c rest ih =>
    have hc : ¬ c = sep := by
      intro h
      exact hx (by rw [h]; exact List.mem_cons_self _ _)
    have hrest : sep ∉ rest := fun h => hx (List.mem_cons_of_mem _ h)
    simp only [List.cons_append, splitOnChar, if_neg hc, List.append_eq, ih hrest]

theorem splitNl_joinNl (ls : List Str) (hls : ls ≠ []) (h : ∀ l ∈ ls, '\n' ∉ l) :
    splitOnChar '\n' (joinNl ls) = ls := by
  induction ls with
  | nil => exact absurd rfl hls
  | cons x ls ih =>
    cases ls with
    | nil => exact splitOnChar_no_sep '\n' x (h x (List.mem_cons_self _ _))
    | cons y ls2 =>
      rw [show joinNl (x :: y :: ls2) = x ++ '\n' :: joinNl (y :: ls2) from rfl]
      rw [splitOnChar_append_sep '\n' x _ (h x (List.mem_cons_self _ _))]
      rw [ih (by simp) (fun l hl => h l (List.mem_cons_of_mem _ hl))]

theorem splitOnChar_concat_sep (sep : Char) (x : Str) :
    splitOnChar sep (x ++ [sep]) = splitOnChar sep x ++ [[]] := by
  induction x with
  | nil => simp [splitOnChar]
  | cons c rest ih =>
    by_cases hc : c = sep
    · simp [splitOnChar, hc, ih]
    · obtain ⟨h0, t0, hsp⟩ : ∃ h0 t0, splitOnChar sep rest = h0 :: t0 := by
        cases hsp : splitOnChar sep rest with
        | nil => exact absurd hsp (splitOnChar_ne_nil sep rest)
        | cons a b => exact ⟨a, b, rfl⟩
      simp only [List.cons_append, splitOnChar, if_neg hc, List.append_eq, ih, hsp]

theorem dropWhile_idem (p : Char → Bool) (l : Str) :
    (l.dropWhile p).dropWhile p = l.dropWhile p := by
  induction l with
  | nil => rfl
  | cons c rest ih =>
    by_cases hc : p c = true
    · simp [List.dropWhile_cons, hc, ih]
    · simp [List.dropWhile_cons, hc]

theorem rstrip_idem (l : Str) : rstrip (rstrip l) = rstrip l := by
  unfold rstrip
  rw [List.reverse_reverse, dropWhile_idem]

theorem mem_of_mem_dropWhileStr (p : Char → Bool) (l : Str) (a : Char)
    (h : a ∈ l.dropWhile p) : a ∈ l := by
  induction l with
  | nil => simp at h
  | cons c rest ih =>
    by_cases hc : p c = true
    · rw [List.dropWhile_cons, if_pos hc] at h
      exact List.mem_cons_of_mem _ (ih h)
    · rw [List.dropWhile_cons, if_neg hc] at h
      exact h

theorem rstrip_no_newline (l : Str) (h : '\n' ∉ l) : '\n' ∉ rstrip l := by
  intro hmem
  apply h
  unfold rstrip at hmem
  rw [List.mem_reverse] at hmem
  exact List.mem_reverse.mp (mem_of_mem_dropWhileStr pyIsSpace l.reverse '\n' hmem)

theorem postprocess_tail_spec (s3 : Str) :
    linesRstripped (if (joinNl ((splitOnChar '\n' s3).map rstrip)).getLast? = some '\n'
        then joinNl ((splitOnChar '\n' s3).map rstrip)
        else joinNl ((splitOnChar '\n' s3).map rstrip) ++ ['\n']) = true ∧
    (if (joinNl ((splitOnChar '\n' s3).map rstrip)).getLast? = some '\n'
        then joinNl ((splitOnChar '\n' s3).map rstrip)
        else joinNl ((splitOnChar '\n' s3).map rstrip) ++ ['\n']).getLast? =
      some '\n' := by
  have hnn : (splitOnChar '\n' s3).map rstrip ≠ [] := by
    intro h
    exact splitOnChar_ne_nil '\n' s3 (List.map_eq_nil_iff.mp h)
  have hfree : ∀ l ∈ (splitOnChar '\n' s3).map rstrip, '\n' ∉ l := by
    intro l hl
    obtain ⟨l0, hl0, rfl⟩ := List.mem_map.mp hl
    exact rstrip_no_newline l0 (not_mem_of_mem_splitOnChar '\n' s3 l0 hl0)
  have hfix : ∀ l ∈ (splitOnChar '\n' s3).map rstrip, rstrip l = l := by
    intro l hl
    obtain ⟨l0, hl0, rfl⟩ := List.mem_map.mp hl
    exact rstrip_idem l0
  have hsplit : splitOnChar '\n' (joinNl ((splitOnChar '\n' s3).map rstrip)) =
      (splitOnChar '\n' s3).map rstrip :=
    splitNl_joinNl _ hnn hfree
  by_cases hend : (joinNl ((splitOnChar '\n' s3).map rstrip)).getLast? = some '\n'
  · rw [if_pos hend]
    refine ⟨?_, hend⟩
    unfold linesRstripped
    rw [hsplit, List.all_eq_true]
    intro l hl
    simp [hfix l hl]
  · rw [if_neg hend]
    constructor
    · unfold linesRstripped
      rw [splitOnChar_concat_sep '\n' (joinNl ((splitOnChar '\n' s3).map rstrip)),
        hsplit, List.all_eq_true]
      intro l hl
      rcases List.mem_append.mp hl with hl | hl
      · simp [hfix l hl]
      · simp at hl
        subst hl
        decide
    · exact List.getLast?_concat _

/-- C7 as amended: the newline-collapsing first step leaves no run of three
or more consecutive newline characters, so no blank-line run of length two
or more survives it; but per-line whitespace trimming runs after it, so
whitespace-only lines trimmed to empty can reintroduce runs of three or
more blank lines in the final output, and a trailing blank line makes the
output end with more than one newline. What holds of the final output for
every input is: every line is free of trailing whitespace, and the output
ends with at least one newline. -/
theorem c7_postprocess_amended (s : Str) :
    noTriple (collapseNl s) = true ∧
    linesRstripped (postprocess_markdown s) = true ∧
    (postprocess_markdown s).getLast? = some '\n' := by
  refine ⟨noTriple_collapseNl s, ?_, ?_⟩
  · exact (postprocess_tail_spec (replaceAll "\n\n```".data "\n```".data
      (replaceAll "```\n\n".data "```\n".data (collapseNl s)))).1
  · exact (postprocess_tail_spec (replaceAll "\n\n```".data "\n```".data
      (replaceAll "```\n\n".data "```\n".data (collapseNl s)))).2

/- Downloader embedding (src/webapi-export/src/downloader.py). The remote
API, the converter pipeline internals and the img-src regex scan are
abstract function parameters (they are network or library boundaries, or
feed only abstract parameters); the downloader's own control flow,
bookkeeping and storage interaction are embedded concretely. The thread
pool of _download_folder is modelled as a sequential loop: per-item
outcomes are reduced into commutative counter updates, and the spec
mandates serialized storage access. -/

/-- The configuration fields read by NoteDownloader. -/
structure DlConfig where
  incremental : Bool
  convert_to_markdown : Bool
  download_attachments : Bool
  extract_images : Bool
  exclude_folders : List Str

/-- An attachment descriptor as returned by get_attachments. -/
structure AttachmentInfo where
  guid : Str
  name : Str
  deriving DecidableEq, Repr

/-- A record of self.failed_items (downloader.py lines 152-157). -/
structure FailItem where
  itemType : Str
  title : Str
  guid : Str
  error : Str
  deriving DecidableEq, Repr

/-- The counters of self.stats that the claims concern
(downloader.py lines 32-43), plus the failure list. -/
structure RunStats where
  total_notes : Nat
  downloaded_notes : Nat
  failed_notes : Nat
  skipped_notes : Nat
  total_attachments : Nat
  downloaded_attachments : Nat
  failed_attachments : Nat
  total_size : Nat
  failed_items : List FailItem
  deriving DecidableEq, Repr

/-- The remote API boundary (auth.py client), as total functions: a fetch
that the Python client answers with a falsy value is a none or an empty
string here. download_note yields the html field of the note data (none
when the note data itself was falsy); get_note_html is the secondary
fetch of downloader.py line 195. -/
structure RemoteApi where
  download_note : Str → Option Str
  get_note_html : Str → Str
  get_attachments : Str → List AttachmentInfo
  download_attachment : Str → Str → Str
  notes_in_folder : Str → List Note
  all_folders : List Str

/-- A NoteDownloader instance: configuration, API client, the converter
pipeline (abstract: claims C3/C6/C7 cover its internals), the resource
scan of _extract_resources_from_html (abstract: its result feeds only the
converter parameter and a log-only helper), knowledge-base name and the
storage layout flag. -/
structure Downloader where
  cfg : DlConfig
  api : RemoteApi
  conv : Str → Note → List Str → Str × List ExtractedResource
  extractRes : Str → List Str
  kb_name : Str
  preserve : Bool

/-- The modification marker the folder filter reads from a listed note
(downloader.py line 116), on the canonical record: absent means empty. -/
def markerOf (note : Note) : Str := note.modified.getD []

/-- Whether the per-note content resolution of downloader.py lines 186-198
comes up empty: note data falsy, or html field empty and the secondary
fetch also empty. -/
def note_fetch_empty (d : Downloader) (note : Note) : Bool :=
  match d.api.download_note note.guid with
  | none => true
  | some h => decide ((if h = [] then d.api.get_note_html note.guid else h) = [])

/-- Embedding of the attachment loop _download_attachments (downloader.py
lines 276-309): skip descriptors without a GUID, count and store non-empty
contents, count empty ones as failed. The except branch (which would
append to failed_items) models exceptions raised by the API client; the
API boundary here is total, so it does not occur. -/
def download_attachments_step (api : RemoteApi) (note_guid : Str) (note_path : FsPath) :
    List AttachmentInfo → StoreState → RunStats → StoreState × RunStats
  | [], st, stats => (st, stats)
  | att :: rest, st, stats =>
    if att.guid = [] then download_attachments_step api note_guid note_path rest st stats
    else
      let content := api.download_attachment note_guid att.guid
      if content ≠ [] then
        download_attachments_step api note_guid note_path rest
          { st with fs := (save_attachment st.fs note_path att.name content).2 }
          { stats with
              downloaded_attachments := stats.downloaded_attachments + 1
              total_size := stats.total_size + content.length }
      else
        download_attachments_step api note_guid note_path rest st
          { stats with failed_attachments := stats.failed_attachments + 1 }

/-- Saving the base64 images extracted during conversion (downloader.py
lines 222-229, via save_resource, which is save_attachment): only
resources of type base64 with truthy data are written; bytes are stored
as characters. -/
def save_extracted_resources : List ExtractedResource → FsPath → FileSys → FileSys
  | [], _, fs => fs
  | ExtractedResource.base64Img fn bytes _ :: rest, note_path, fs =>
    if bytes ≠ [] then
      save_extracted_resources rest note_path
        (save_attachment fs note_path fn (bytes.map Char.ofNat)).2
    else save_extracted_resources rest note_path fs
  | ExtractedResource.resourceRef _ _ :: rest, note_path, fs =>
    save_extracted_resources rest note_path fs

/-- Embedding of NoteDownloader._download_note (downloader.py lines
161-257): resolve the content (empty means failure), convert or store
verbatim, save base64 resources extracted during conversion, then fetch
and store the declared attachments. The full-info merge of lines 171-183
normalizes field aliases, which the canonical Note record absorbs. All
internal exceptions are caught (lines 255-257), so the result is a plain
Bool. -/
def download_note (d : Downloader) (folder : Str) (note : Note) (now : Nat)
    (st : StoreState) (stats : RunStats) : Bool × StoreState × RunStats :=
  match d.api.download_note note.guid with
  | none => (false, st, stats)
  | some h =>
    let html := if h = [] then d.api.get_note_html note.guid else h
    if html = [] then (false, st, stats)
    else
      let resources := d.extractRes html
      let saved :=
        if d.cfg.convert_to_markdown then
          let conv := d.conv html note resources
          let sr := save_note d.preserve st d.kb_name folder note conv.1 "md".data now
          (sr.1, sr.2, conv.2)
        else
          let sr := save_note d.preserve st d.kb_name folder note html "html".data now
          (sr.1, sr.2, ([] : List ExtractedResource))
      match saved with
      | (none, st1, _) => (false, st1, stats)
      | (some p, st1, extracted) =>
        let st2 := { st1 with fs := save_extracted_resources extracted p st1.fs }
        let atts := d.api.get_attachments note.guid
        if atts ≠ [] ∧ d.cfg.download_attachments then
          let r := download_attachments_step d.api note.guid p atts st2
            { stats with total_attachments := stats.total_attachments + atts.length }
          (true, r.1, r.2)
        else (true, st2, stats)

/-- The incremental filter of _download_folder (downloader.py lines
110-122): in incremental mode, notes the index reports unmodified are
skipped and counted; the rest are queued in order. -/
def incremental_filter (cfg : DlConfig) (idx : NoteIndex) :
    List Note → RunStats → List Note × RunStats
  | [], stats => ([], stats)
  | n :: rest, stats =>
    if cfg.incremental ∧ is_note_modified idx n.guid (markerOf n) = false then
      incremental_filter cfg idx rest
        { stats with skipped_notes := stats.skipped_notes + 1 }
    else
      let r := incremental_filter cfg idx rest stats
      (n :: r.1, r.2)

/-- Outcome reduction of _download_folder (downloader.py lines 141-159): a
worker that returned success or failure bumps the matching counter; only a
worker that raised appends to failed_items. -/
def process_note_outcome (stats : RunStats) (note : Note) (outcome : Except Str Bool) :
    RunStats :=
  match outcome with
  | Except.ok true => { stats with downloaded_notes := stats.downloaded_notes + 1 }
  | Except.ok false => { stats with failed_notes := stats.failed_notes + 1 }
  | Except.error e =>
    { stats with
        failed_notes := stats.failed_notes + 1
        failed_items := stats.failed_items ++
          [{ itemType := "note".data, title := note.title, guid := note.guid,
             error := e }] }

/-- The dispatch-and-reduce phase of _download_folder over the queued
notes. _download_note catches every exception and returns a Bool, so each
worker outcome is Except.ok and the error branch of the reducer never
fires. -/
def download_notes_loop (d : Downloader) (folder : Str) (now : Nat) :
    List Note → StoreState → RunStats → StoreState × RunStats
  | [], st, stats => (st, stats)
  | n :: rest, st, stats =>
    let r := download_note d folder n now st stats
    download_notes_loop d folder now rest r.2.1
      (process_note_outcome r.2.2 n (Except.ok r.1))

/-- Embedding of NoteDownloader._download_folder (downloader.py lines
94-159): list the folder's notes (empty folder: early return), count them,
apply the incremental filter, and process the queue. -/
def download_folder (d : Downloader) (folder : Str) (now : Nat)
    (st : StoreState) (stats : RunStats) : StoreState × RunStats :=
  let notes := d.api.notes_in_folder folder
  if notes = [] then (st, stats)
  else
    let stats1 := { stats with total_notes := stats.total_notes + notes.length }
    let fr := incremental_filter d.cfg st.index notes stats1
    if fr.1 = [] then (st, fr.2)
    else download_notes_loop d folder now fr.1 st fr.2

/-- Folder selection of download_all (downloader.py lines 66-74): an
explicit filter restricts to its members; otherwise folders starting with
a configured exclusion prefix are dropped. -/
def folders_to_process (cfg : DlConfig) (flt : Option (List Str))
    (all_folders : List Str) : List Str :=
  match flt with
  | some fl => all_folders.filter (fun f => f ∈ fl)
  | none =>
    if cfg.exclude_folders ≠ [] then
      all_folders.filter
        (fun f => !(cfg.exclude_folders.any (fun ex => startsWithStr ex f)))
    else all_folders

/-- The folder loop of download_all. -/
def download_all_loop (d : Downloader) (now : Nat) :
    List Str → StoreState → RunStats → StoreState × RunStats
  | [], st, stats => (st, stats)
  | f :: rest, st, stats =>
    let r := download_folder d f now st stats
    download_all_loop d now rest r.1 r.2

/-- Embedding of NoteDownloader.download_all (downloader.py lines 52-92):
select folders, process each in turn. The final save_index /
save_sync_state calls persist exactly the in-memory index held in the
store state, so they are not separate state here. -/
def download_all (d : Downloader) (flt : Option (List Str)) (now : Nat)
    (st : StoreState) (stats : RunStats) : StoreState × RunStats :=
  download_all_loop d now (folders_to_process d.cfg flt d.api.all_folders) st stats

theorem download_attachments_step_frame (api : RemoteApi) (g : Str) (p : FsPath) :
    ∀ (atts : List AttachmentInfo) (st : StoreState) (stats : RunStats),
    ((download_attachments_step api g p atts st stats).1).index = st.index ∧
    ((download_attachments_step api g p atts st stats).2).total_notes =
      stats.total_notes ∧
    ((download_attachments_step api g p atts st stats).2).downloaded_notes =
      stats.downloaded_notes ∧
    ((download_attachments_step api g p atts st stats).2).failed_notes =
      stats.failed_notes ∧
    ((download_attachments_step api g p atts st stats).2).skipped_notes =
      stats.skipped_notes ∧
    ((download_attachments_step api g p atts st stats).2).failed_items =
      stats.failed_items := by
  intro atts
  induction atts with
  | nil =>
    intro st stats
    exact ⟨rfl, rfl, rfl, rfl, rfl, rfl⟩
  | cons a rest ih =>
    intro st stats
    by_cases hg : a.guid = []
    · simpa [download_attachments_step, hg] using ih st stats
    · by_cases hc : api.download_attachment g a.guid ≠ []
      · have h2 := ih
          { st with fs := (save_attachment st.fs p a.name (api.download_attachment g a.guid)).2 }
          { stats with
              downloaded_attachments := stats.downloaded_attachments + 1
              total_size := stats.total_size + (api.download_attachment g a.guid).length }
        simpa [download_attachments_step, hg, hc] using h2
      · have h2 := ih st { stats with failed_attachments := stats.failed_attachments + 1 }
        simpa [download_attachments_step, hg, hc] using h2

theorem save_note_eq (preserve : Bool) (st : StoreState) (team folder : Str)
    (note : Note) (content fmt : Str) (now : Nat) :
    save_note preserve st team folder note content fmt now =
      (some (get_note_path preserve st team folder note.title note.guid),
       { fs := setFile st.fs
           (get_note_path preserve st team folder note.title note.guid) content
         index := setEntry st.index note.guid
           { title := note.title
             file_path := get_note_path preserve st team folder note.title note.guid
             team := team
             folder := folder
             created := note.created
             modified := note.modified
             tags := note.tags.getD (TagVal.list [])
             format := fmt
             saved_at := now } }) := rfl

theorem download_note_spec (d : Downloader) (folder : Str) (note : Note) (now : Nat)
    (st : StoreState) (stats : RunStats) :
    ((download_note d folder note now st stats).1 = !(note_fetch_empty d note)) ∧
    ((download_note d folder note now st stats).2.2).total_notes = stats.total_notes ∧
    ((download_note d folder note now st stats).2.2).downloaded_notes =
      stats.downloaded_notes ∧
    ((download_note d folder note now st stats).2.2).failed_notes = stats.failed_notes ∧
    ((download_note d folder note now st stats).2.2).skipped_notes =
      stats.skipped_notes ∧
    ((download_note d folder note now st stats).2.2).failed_items =
      stats.failed_items ∧
    (note_fetch_empty d note = true →
      (download_note d folder note now st stats).2.1 = st) ∧
    (note_fetch_empty d note = false →
      ∃ e : IndexEntry, e.modified = note.modified ∧
        ((download_note d folder note now st stats).2.1).index =
          setEntry st.index note.guid e) := by
  cases hdn : d.api.download_note note.guid with
  | none =>
    simp [download_note, note_fetch_empty, hdn]
  | some h =>
    by_cases hhtml : (if h = [] then d.api.get_note_html note.guid else h) = []
    · simp [download_note, note_fetch_empty, hdn, hhtml]
    · have hfe : note_fetch_empty d note = false := by
        simp [note_fetch_empty, hdn, hhtml]
      rw [hfe]
      by_cases hmd : d.cfg.convert_to_markdown = true
      · simp only [download_note, hdn, if_neg hhtml, hmd, if_true, save_note_eq]
        split
        · refine ⟨rfl, ?_, ?_, ?_, ?_, ?_, ?_, fun _ => ⟨_, ?_,
            (download_attachments_step_frame d.api note.guid _ _ _ _).1⟩⟩
          · exact (download_attachments_step_frame d.api note.guid _ _ _ _).2.1
          · exact (download_attachments_step_frame d.api note.guid _ _ _ _).2.2.1
          · exact (download_attachments_step_frame d.api note.guid _ _ _ _).2.2.2.1
          · exact (download_attachments_step_frame d.api note.guid _ _ _ _).2.2.2.2.1
          · exact (download_attachments_step_frame d.api note.guid _ _ _ _).2.2.2.2.2
          · intro hcon
            exact absurd hcon (by simp)
          · rfl
        · exact ⟨rfl, rfl, rfl, rfl, rfl, rfl,
            fun hcon => absurd hcon (by simp), fun _ => ⟨_, rfl, rfl⟩⟩
      · simp only [Bool.not_eq_true] at hmd
        simp only [download_note, hdn, if_neg hhtml, hmd, Bool.false_eq_true, if_false,
          save_note_eq]
        split
        · refine ⟨rfl, ?_, ?_, ?_, ?_, ?_, ?_, fun _ => ⟨_, ?_,
            (download_attachments_step_frame d.api note.guid _ _ _ _).1⟩⟩
          · exact (download_attachments_step_frame d.api note.guid _ _ _ _).2.1
          · exact (download_attachments_step_frame d.api note.guid _ _ _ _).2.2.1
          · exact (download_attachments_step_frame d.api note.guid _ _ _ _).2.2.2.1
          · exact (download_attachments_step_frame d.api note.guid _ _ _ _).2.2.2.2.1
          · exact (download_attachments_step_frame d.api note.guid _ _ _ _).2.2.2.2.2
          · intro hcon
            exact absurd hcon (by simp)
          · rfl
        · exact ⟨rfl, rfl, rfl, rfl, rfl, rfl,
            fun hcon => absurd hcon (by simp), fun _ => ⟨_, rfl, rfl⟩⟩

theorem download_notes_loop_stats (d : Downloader) (folder : Str) (now : Nat) :
    ∀ (sel : List Note) (st : StoreState) (stats : RunStats),
    ((download_notes_loop d folder now sel st stats).2).failed_notes =
      stats.failed_notes + sel.countP (fun n => note_fetch_empty d n) ∧
    ((download_notes_loop d folder now sel st stats).2).downloaded_notes =
      stats.downloaded_notes + sel.countP (fun n => !(note_fetch_empty d n)) ∧
    ((download_notes_loop d folder now sel st stats).2).skipped_notes =
      stats.skipped_notes ∧
    ((download_notes_loop d folder now sel st stats).2).failed_items =
      stats.failed_items ∧
    ((download_notes_loop d folder now sel st stats).2).total_notes =
      stats.total_notes := by
  intro sel
  induction sel with
  | nil =>
    intro st stats
    simp [download_notes_loop]
  | cons n rest ih =>
    intro st stats
    obtain ⟨hb, ht, hd, hf, hs, hfi, _, _⟩ := download_note_spec d folder n now st stats
    have hstep : download_notes_loop d folder now (n :: rest) st stats =
        download_notes_loop d folder now rest
          (download_note d folder n now st stats).2.1
          (process_note_outcome (download_note d folder n now st stats).2.2 n
            (Except.ok (download_note d folder n now st stats).1)) := rfl
    rw [hstep]
    obtain ⟨i1, i2, i3, i4, i5⟩ := ih (download_note d folder n now st stats).2.1
      (process_note_outcome (download_note d folder n now st stats).2.2 n
        (Except.ok (download_note d folder n now st stats).1))
    rw [i1, i2, i3, i4, i5, hb]
    by_cases hfe : note_fetch_empty d n = true
    · rw [hfe]
      simp only [Bool.not_true, process_note_outcome]
      refine ⟨?_, ?_, ?_, ?_, ?_⟩ <;>
        (simp [List.countP_cons, hfe, ht, hd, hf, hs, hfi]; try omega)
    · simp only [Bool.not_eq_true] at hfe
      rw [hfe]
      simp only [Bool.not_false, process_note_outcome]
      refine ⟨?_, ?_, ?_, ?_, ?_⟩ <;>
        (simp [List.countP_cons, hfe, ht, hd, hf, hs, hfi]; try omega)

theorem incremental_filter_not_inc (cfg : DlConfig) (idx : NoteIndex)
    (hinc : cfg.incremental = false) :
    ∀ (notes : List Note) (stats : RunStats),
    incremental_filter cfg idx notes stats = (notes, stats) := by
  intro notes
  induction notes with
  | nil => intro stats; rfl
  | cons n rest ih =>
    intro stats
    simp [incremental_filter, hinc, ih stats]

/-- C4 as amended: with incremental mode off, a run over a folder counts
every note whose content fetch came up empty as failed and every other
note as downloaded (other notes still complete), leaves the skipped count
untouched (failed is distinct from skipped) — but appends nothing to the
failure list: _download_note catches its own exceptions and returns False,
and _download_folder appends to failed_items only when a worker raises,
which therefore never happens. -/
theorem c4_empty_content_failure_accounting (d : Downloader) (folder : Str)
    (now : Nat) (st : StoreState) (stats : RunStats)
    (hinc : d.cfg.incremental = false) :
    ((download_folder d folder now st stats).2).failed_notes =
      stats.failed_notes +
        (d.api.notes_in_folder folder).countP (fun n => note_fetch_empty d n) ∧
    ((download_folder d folder now st stats).2).downloaded_notes =
      stats.downloaded_notes +
        (d.api.notes_in_folder folder).countP (fun n => !(note_fetch_empty d n)) ∧
    ((download_folder d folder now st stats).2).skipped_notes =
      stats.skipped_notes ∧
    ((download_folder d folder now st stats).2).failed_items =
      stats.failed_items := by
  by_cases hempty : d.api.notes_in_folder folder = []
  · simp [download_folder, hempty]
  · have hfilter := incremental_filter_not_inc d.cfg st.index hinc
      (d.api.notes_in_folder folder)
      { stats with total_notes := stats.total_notes + (d.api.notes_in_folder folder).length }
    have hred : download_folder d folder now st stats =
        download_notes_loop d folder now (d.api.notes_in_folder folder) st
          { stats with
              total_notes := stats.total_notes + (d.api.notes_in_folder folder).length } := by
      simp only [download_folder, if_neg hempty, hfilter]
    obtain ⟨l1, l2, l3, l4, _⟩ := download_notes_loop_stats d folder now
      (d.api.notes_in_folder folder) st
      { stats with
          total_notes := stats.total_notes + (d.api.notes_in_folder folder).length }
    rw [hred]
    exact ⟨l1, l2, l3, l4⟩

/-- A canonical note record for concrete scenarios. -/
def cNote (g t m : Str) : Note :=
  { guid := g, title := t, created := none, modified := some m, tags := none,
    author := none }

/-- All-zero run statistics, as at the start of a run. -/
def emptyStats : RunStats :=
  { total_notes := 0, downloaded_notes := 0, failed_notes := 0, skipped_notes := 0,
    total_attachments := 0, downloaded_attachments := 0, failed_attachments := 0,
    total_size := 0, failed_items := [] }

/-- The concrete partial-failure scenario: one folder with three notes, the
second of which gets an empty answer for its content (both the primary
note download and the secondary html fetch). -/
def scenarioApi : RemoteApi :=
  { download_note := fun g => if g = "g2".data then some [] else some "<p>x</p>".data
    get_note_html := fun _ => []
    get_attachments := fun _ => []
    download_attachment := fun _ _ => []
    notes_in_folder := fun _ =>
      [cNote "g1".data "n1".data "2024".data,
       cNote "g2".data "n2".data "2024".data,
       cNote "g3".data "n3".data "2024".data]
    all_folders := ["/Notes/Work".data] }

/-- A downloader over the scenario API, full run (no incremental mode),
with a converter stand-in that passes content through. -/
def scenarioDl : Downloader :=
  { cfg := { incremental := false, convert_to_markdown := true,
             download_attachments := true, extract_images := true,
             exclude_folders := [] }
    api := scenarioApi
    conv := fun html _ _ => (html, [])
    extractRes := fun _ => []
    kb_name := "Personal".data
    preserve := true }

/-- C4 counterexample: in the concrete partial-failure scenario the run
ends with failed == 1 and downloaded == 2 as the claim says, but the
failure list is empty — it does not contain an entry identifying the
failed item by title and identity, because _download_note returns False
instead of raising and only the exception path appends to failed_items. -/
theorem c4_failed_items_counterexample :
    ((download_folder scenarioDl "/Notes/Work".data 0
        { fs := [], index := [] } emptyStats).2).failed_notes = 1 ∧
    ((download_folder scenarioDl "/Notes/Work".data 0
        { fs := [], index := [] } emptyStats).2).downloaded_notes = 2 ∧
    ((download_folder scenarioDl "/Notes/Work".data 0
        { fs := [], index := [] } emptyStats).2).failed_items = [] := by
  refine ⟨by decide, by decide, by decide⟩

/-- Witness for the amended C4 theorem at the concrete scenario. -/
theorem c4_empty_content_failure_accounting_witness :
    ((download_folder scenarioDl "/Notes/Work".data 0
        { fs := [], index := [] } emptyStats).2).failed_notes =
      emptyStats.failed_notes +
        (scenarioDl.api.notes_in_folder "/Notes/Work".data).countP
          (fun n => note_fetch_empty scenarioDl n) ∧
    ((download_folder scenarioDl "/Notes/Work".data 0
        { fs := [], index := [] } emptyStats).2).downloaded_notes =
      emptyStats.downloaded_notes +
        (scenarioDl.api.notes_in_folder "/Notes/Work".data).countP
          (fun n => !(note_fetch_empty scenarioDl n)) ∧
    ((download_folder scenarioDl "/Notes/Work".data 0
        { fs := [], index := [] } emptyStats).2).skipped_notes =
      emptyStats.skipped_notes ∧
    ((download_folder scenarioDl "/Notes/Work".data 0
        { fs := [], index := [] } emptyStats).2).failed_items =
      emptyStats.failed_items :=
  c4_empty_content_failure_accounting scenarioDl "/Notes/Work".data 0
    { fs := [], index := [] } emptyStats rfl

/-- A note the idempotence argument can rely on: its content fetch is
non-empty (so a first run saves it) and it carries a non-empty
modification marker (so the saved entry makes an unchanged rerun skip
it). -/
def goodNote (d : Downloader) (n : Note) : Prop :=
  note_fetch_empty d n = false ∧ n.modified = some (markerOf n) ∧ markerOf n ≠ []

instance (d : Downloader) (n : Note) : Decidable (goodNote d n) := by
  unfold goodNote
  infer_instance

theorem lookup_setEntry_self (idx : NoteIndex) (g : Str) (e : IndexEntry) :
    lookupIndex (setEntry idx g e) g = some e := by
  induction idx with
  | nil => simp [setEntry, lookupIndex]
  | cons f rest ih =>
    by_cases hf : f.1 = g
    · simp [setEntry, hf, lookupIndex]
    · simp [setEntry, hf, lookupIndex, ih]

theorem lookup_setEntry_ne (idx : NoteIndex) (g g' : Str) (e : IndexEntry)
    (h : g' ≠ g) : lookupIndex (setEntry idx g e) g' = lookupIndex idx g' := by
  have hgg : ¬ g = g' := fun h0 => h h0.symm
  induction idx with
  | nil => simp [setEntry, lookupIndex, hgg]
  | cons f rest ih =>
    by_cases hf : f.1 = g
    · rw [show setEntry (f :: rest) g e = (g, e) :: rest from by simp [setEntry, hf]]
      have hfg' : ¬ f.1 = g' := by
        rw [hf]
        exact hgg
      simp [lookupIndex, hgg, hfg']
    · rw [show setEntry (f :: rest) g e = f :: setEntry rest g e from by
        simp [setEntry, hf]]
      by_cases hf2 : f.1 = g'
      · simp [lookupIndex, hf2]
      · simp [lookupIndex, hf2, ih]

theorem is_note_modified_congr (idx1 idx2 : NoteIndex) (g m : Str)
    (h : lookupIndex idx1 g = lookupIndex idx2 g) :
    is_note_modified idx1 g m = is_note_modified idx2 g m := by
  unfold is_note_modified
  rw [h]

theorem is_note_modified_self_false (idx : NoteIndex) (g mk : Str) (e : IndexEntry)
    (hl : lookupIndex idx g = some e) (hm : e.modified = some mk) (hne : mk ≠ []) :
    is_note_modified idx g mk = false := by
  simp [is_note_modified, hl, hm, hne, strLtB_self]

theorem download_note_index_frame (d : Downloader) (folder : Str) (n : Note)
    (now : Nat) (st : StoreState) (stats : RunStats) (g : Str) (hg : g ≠ n.guid) :
    lookupIndex ((download_note d folder n now st stats).2.1).index g =
      lookupIndex st.index g := by
  obtain ⟨_, _, _, _, _, _, hempty, hfull⟩ := download_note_spec d folder n now st stats
  by_cases hfe : note_fetch_empty d n = true
  · rw [hempty hfe]
  · simp only [Bool.not_eq_true] at hfe
    obtain ⟨e, _, hidx⟩ := hfull hfe
    rw [hidx, lookup_setEntry_ne _ _ _ _ hg]

theorem download_notes_loop_index_frame (d : Downloader) (folder : Str) (now : Nat) :
    ∀ (sel : List Note) (st : StoreState) (stats : RunStats) (g : Str),
    g ∉ sel.map Note.guid →
    lookupIndex ((download_notes_loop d folder now sel st stats).1).index g =
      lookupIndex st.index g := by
  intro sel
  induction sel with
  | nil => intro st stats g _; rfl
  | cons n rest ih =>
    intro st stats g hg
    simp only [List.map_cons, List.mem_cons, not_or] at hg
    have hstep : download_notes_loop d folder now (n :: rest) st stats =
        download_notes_loop d folder now rest
          (download_note d folder n now st stats).2.1
          (process_note_outcome (download_note d folder n now st stats).2.2 n
            (Except.ok (download_note d folder n now st stats).1)) := rfl
    rw [hstep, ih _ _ g hg.2,
      download_note_index_frame d folder n now st stats g hg.1]

theorem download_notes_loop_settles (d : Downloader) (folder : Str) (now : Nat) :
    ∀ (sel : List Note) (st : StoreState) (stats : RunStats) (n : Note),
    (sel.map Note.guid).Nodup → n ∈ sel → note_fetch_empty d n = false →
    ∃ e : IndexEntry, e.modified = n.modified ∧
      lookupIndex ((download_notes_loop d folder now sel st stats).1).index n.guid =
        some e := by
  intro sel
  induction sel with
  | nil =>
    intro st stats n _ hn _
    simp at hn
  | cons m rest ih =>
    intro st stats n hnd hn hfe
    have hstep : download_notes_loop d folder now (m :: rest) st stats =
        download_notes_loop d folder now rest
          (download_note d folder m now st stats).2.1
          (process_note_outcome (download_note d folder m now st stats).2.2 m
            (Except.ok (download_note d folder m now st stats).1)) := rfl
    rcases List.mem_cons.mp hn with rfl | hn2
    · obtain ⟨_, _, _, _, _, _, _, hfull⟩ := download_note_spec d folder n now st stats
      obtain ⟨e, hmod, hidx⟩ := hfull hfe
      refine ⟨e, hmod, ?_⟩
      have hnotin : n.guid ∉ rest.map Note.guid := by
        simp only [List.map_cons, List.nodup_cons] at hnd
        exact hnd.1
      rw [hstep, download_notes_loop_index_frame d folder now rest _ _ n.guid hnotin,
        hidx, lookup_setEntry_self]
    · rw [hstep]
      exact ih _ _ n (by simpa [List.nodup_cons] using (List.nodup_cons.mp
        (by simpa [List.map_cons] using hnd)).2) hn2 hfe

theorem incremental_filter_sublist (cfg : DlConfig) (idx : NoteIndex) :
    ∀ (notes : List Note) (stats : RunStats),
    ((incremental_filter cfg idx notes stats).1).Sublist notes := by
  intro notes
  induction notes with
  | nil => intro stats; simp [incremental_filter]
  | cons k rest ih =>
    intro stats
    by_cases hcond : (cfg.incremental ∧ is_note_modified idx k.guid (markerOf k) = false)
    · rw [show incremental_filter cfg idx (k :: rest) stats =
          incremental_filter cfg idx rest
            { stats with skipped_notes := stats.skipped_notes + 1 } from by
        simp [incremental_filter, hcond]]
      exact (ih _).cons k
    · rw [show (incremental_filter cfg idx (k :: rest) stats).1 =
          k :: (incremental_filter cfg idx rest stats).1 from by
        simp [incremental_filter, hcond]]
      exact (ih _).cons₂ k

theorem incremental_filter_not_selected (cfg : DlConfig) (idx : NoteIndex) :
    ∀ (notes : List Note) (stats : RunStats) (n : Note), n ∈ notes →
    n ∉ (incremental_filter cfg idx notes stats).1 →
    (cfg.incremental = true ∧ is_note_modified idx n.guid (markerOf n) = false) := by
  intro notes
  induction notes with
  | nil =>
    intro stats n hn _
    simp at hn
  | cons k rest ih =>
    intro stats n hn hnot
    by_cases hcond : (cfg.incremental ∧ is_note_modified idx k.guid (markerOf k) = false)
    · rw [show incremental_filter cfg idx (k :: rest) stats =
          incremental_filter cfg idx rest
            { stats with skipped_notes := stats.skipped_notes + 1 } from by
        simp [incremental_filter, hcond]] at hnot
      rcases List.mem_cons.mp hn with rfl | hn2
      · exact hcond
      · exact ih _ n hn2 hnot
    · rw [show (incremental_filter cfg idx (k :: rest) stats).1 =
          k :: (incremental_filter cfg idx rest stats).1 from by
        simp [incremental_filter, hcond]] at hnot
      rcases List.mem_cons.mp hn with rfl | hn2
      · exact absurd (List.mem_cons_self n _) hnot
      · exact ih stats n hn2 (fun h0 => hnot (List.mem_cons_of_mem _ h0))

theorem incremental_filter_all_skip (cfg : DlConfig) (idx : NoteIndex)
    (hinc : cfg.incremental = true) :
    ∀ (notes : List Note) (stats : RunStats),
    (∀ n ∈ notes, is_note_modified idx n.guid (markerOf n) = false) →
    (incremental_filter cfg idx notes stats).1 = [] := by
  intro notes
  induction notes with
  | nil => intro stats _; rfl
  | cons k rest ih =>
    intro stats hall
    have hcond : (cfg.incremental ∧ is_note_modified idx k.guid (markerOf k) = false) :=
      ⟨hinc, hall k (List.mem_cons_self _ _)⟩
    rw [show incremental_filter cfg idx (k :: rest) stats =
        incremental_filter cfg idx rest
          { stats with skipped_notes := stats.skipped_notes + 1 } from by
      simp [incremental_filter, hcond]]
    exact ih _ (fun n hn => hall n (List.mem_cons_of_mem _ hn))

theorem download_folder_index_frame (d : Downloader) (f : Str) (now : Nat)
    (st : StoreState) (stats : RunStats) (g : Str)
    (hg : g ∉ (d.api.notes_in_folder f).map Note.guid) :
    lookupIndex ((download_folder d f now st stats).1).index g =
      lookupIndex st.index g := by
  by_cases hempty : d.api.notes_in_folder f = []
  · simp [download_folder, hempty]
  · by_cases hfr : (incremental_filter d.cfg st.index (d.api.notes_in_folder f)
        { stats with
            total_notes := stats.total_notes + (d.api.notes_in_folder f).length }).1 = []
    · rw [show (download_folder d f now st stats).1 = st from by
        simp only [download_folder, if_neg hempty]
        rw [if_pos hfr]]
    · rw [show download_folder d f now st stats =
          download_notes_loop d f now
            (incremental_filter d.cfg st.index (d.api.notes_in_folder f)
              { stats with total_notes :=
                  stats.total_notes + (d.api.notes_in_folder f).length }).1 st
            (incremental_filter d.cfg st.index (d.api.notes_in_folder f)
              { stats with total_notes :=
                  stats.total_notes + (d.api.notes_in_folder f).length }).2 from by
        simp only [download_folder, if_neg hempty]
        rw [if_neg hfr]]
      apply download_notes_loop_index_frame
      intro hmem
      apply hg
      obtain ⟨n', hn', hgeq⟩ := List.mem_map.mp hmem
      exact List.mem_map.mpr ⟨n',
        (incremental_filter_sublist d.cfg st.index _ _).subset hn', hgeq⟩

theorem download_folder_settles (d : Downloader) (f : Str) (now : Nat)
    (st : StoreState) (stats : RunStats)
    (hnd : ((d.api.notes_in_folder f).map Note.guid).Nodup)
    (hgood : ∀ n ∈ d.api.notes_in_folder f, goodNote d n) :
    ∀ n ∈ d.api.notes_in_folder f,
      is_note_modified ((download_folder d f now st stats).1).index n.guid
        (markerOf n) = false := by
  intro n hn
  have hempty : d.api.notes_in_folder f ≠ [] := by
    intro h0
    rw [h0] at hn
    simp at hn
  by_cases hfr : (incremental_filter d.cfg st.index (d.api.notes_in_folder f)
      { stats with
          total_notes := stats.total_notes + (d.api.notes_in_folder f).length }).1 = []
  · rw [show (download_folder d f now st stats).1 = st from by
      simp only [download_folder, if_neg hempty]
      rw [if_pos hfr]]
    exact (incremental_filter_not_selected d.cfg st.index _ _ n hn
      (by rw [hfr]; exact List.not_mem_nil n)).2
  · rw [show download_folder d f now st stats =
        download_notes_loop d f now
          (incremental_filter d.cfg st.index (d.api.notes_in_folder f)
            { stats with total_notes :=
                stats.total_notes + (d.api.notes_in_folder f).length }).1 st
          (incremental_filter d.cfg st.index (d.api.notes_in_folder f)
            { stats with total_notes :=
                stats.total_notes + (d.api.notes_in_folder f).length }).2 from by
      simp only [download_folder, if_neg hempty]
      rw [if_neg hfr]]
    by_cases hmem : n ∈ (incremental_filter d.cfg st.index (d.api.notes_in_folder f)
        { stats with
            total_notes := stats.total_notes + (d.api.notes_in_folder f).length }).1
    · obtain ⟨e, hmod, hl⟩ := download_notes_loop_settles d f now _ st _ n
        (hnd.sublist ((incremental_filter_sublist d.cfg st.index _ _).map Note.guid))
        hmem (hgood n hn).1
      exact is_note_modified_self_false _ _ _ e hl
        (by rw [hmod]; exact (hgood n hn).2.1) (hgood n hn).2.2
    · have hskip := incremental_filter_not_selected d.cfg st.index _ _ n hn hmem
      have hnotin : n.guid ∉ ((incremental_filter d.cfg st.index
          (d.api.notes_in_folder f)
          { stats with total_notes :=
              stats.total_notes + (d.api.notes_in_folder f).length }).1).map
            Note.guid := by
        intro hmemg
        obtain ⟨n', hn', hgeq⟩ := List.mem_map.mp hmemg
        have hn'notes : n' ∈ d.api.notes_in_folder f :=
          (incremental_filter_sublist d.cfg st.index _ _).subset hn'
        have heq : n' = n := List.inj_on_of_nodup_map hnd hn'notes hn hgeq
        rw [heq] at hn'
        exact hmem hn'
      rw [is_note_modified_congr _ st.index n.guid (markerOf n)
        (download_notes_loop_index_frame d f now _ st _ n.guid hnotin)]
      exact hskip.2

theorem download_folder_skip (d : Downloader) (f : Str) (now : Nat)
    (st : StoreState) (stats : RunStats) (hinc : d.cfg.incremental = true)
    (hall : ∀ n ∈ d.api.notes_in_folder f,
      is_note_modified st.index n.guid (markerOf n) = false) :
    (download_folder d f now st stats).1 = st := by
  by_cases hempty : d.api.notes_in_folder f = []
  · simp [download_folder, hempty]
  · have hfr := incremental_filter_all_skip d.cfg st.index hinc
      (d.api.notes_in_folder f)
      { stats with
          total_notes := stats.total_notes + (d.api.notes_in_folder f).length } hall
    simp only [download_folder, if_neg hempty]
    rw [if_pos hfr]

theorem download_all_loop_index_frame (d : Downloader) (now : Nat) :
    ∀ (fl : List Str) (st : StoreState) (stats : RunStats) (g : Str),
    (∀ f ∈ fl, g ∉ (d.api.notes_in_folder f).map Note.guid) →
    lookupIndex ((download_all_loop d now fl st stats).1).index g =
      lookupIndex st.index g := by
  intro fl
  induction fl with
  | nil => intro st stats g _; rfl
  | cons f0 rest ih =>
    intro st stats g hg
    have hstep : download_all_loop d now (f0 :: rest) st stats =
        download_all_loop d now rest (download_folder d f0 now st stats).1
          (download_folder d f0 now st stats).2 := rfl
    rw [hstep, ih _ _ g (fun f hf => hg f (List.mem_cons_of_mem _ hf)),
      download_folder_index_frame d f0 now st stats g (hg f0 (List.mem_cons_self _ _))]

theorem download_all_loop_settles (d : Downloader) (now : Nat) :
    ∀ (fl : List Str) (st : StoreState) (stats : RunStats),
    ((fl.flatMap (fun f => d.api.notes_in_folder f)).map Note.guid).Nodup →
    (∀ f ∈ fl, ∀ n ∈ d.api.notes_in_folder f, goodNote d n) →
    ∀ f ∈ fl, ∀ n ∈ d.api.notes_in_folder f,
      is_note_modified ((download_all_loop d now fl st stats).1).index n.guid
        (markerOf n) = false := by
  intro fl
  induction fl with
  | nil =>
    intro st stats _ _ f hf
    simp at hf
  | cons f0 rest ih =>
    intro st stats hnd hgood f hf n hn
    have hnd' : ((d.api.notes_in_folder f0).map Note.guid ++
        (rest.flatMap (fun f => d.api.notes_in_folder f)).map Note.guid).Nodup := by
      rw [← List.map_append, ← List.flatMap_cons]
      exact hnd
    rw [List.nodup_append] at hnd'
    have hstep : download_all_loop d now (f0 :: rest) st stats =
        download_all_loop d now rest (download_folder d f0 now st stats).1
          (download_folder d f0 now st stats).2 := rfl
    rcases List.mem_cons.mp hf with rfl | hf2
    · have hset := download_folder_settles d f now st stats hnd'.1
        (hgood f (List.mem_cons_self _ _)) n hn
      have hpres : ∀ f' ∈ rest, n.guid ∉ (d.api.notes_in_folder f').map Note.guid := by
        intro f' hf' hmem
        have hleft : n.guid ∈ (d.api.notes_in_folder f).map Note.guid :=
          List.mem_map.mpr ⟨n, hn, rfl⟩
        have hright : n.guid ∈
            (rest.flatMap (fun f => d.api.notes_in_folder f)).map Note.guid := by
          obtain ⟨n', hn', hgeq⟩ := List.mem_map.mp hmem
          exact List.mem_map.mpr ⟨n', List.mem_flatMap.mpr ⟨f', hf', hn'⟩, hgeq⟩
        exact hnd'.2.2 hleft hright
      rw [hstep, is_note_modified_congr _ _ _ _
        (download_all_loop_index_frame d now rest _ _ n.guid hpres)]
      exact hset
    · rw [hstep]
      exact ih _ _ hnd'.2.1 (fun f' hf' => hgood f' (List.mem_cons_of_mem _ hf'))
        f hf2 n hn

theorem download_all_loop_skip (d : Downloader) (now : Nat)
    (hinc : d.cfg.incremental = true) :
    ∀ (fl : List Str) (st : StoreState) (stats : RunStats),
    (∀ f ∈ fl, ∀ n ∈ d.api.notes_in_folder f,
      is_note_modified st.index n.guid (markerOf n) = false) →
    (download_all_loop d now fl st stats).1 = st := by
  intro fl
  induction fl with
  | nil => intro st stats _; rfl
  | cons f0 rest ih =>
    intro st stats hall
    have hfold : (download_folder d f0 now st stats).1 = st :=
      download_folder_skip d f0 now st stats hinc
        (hall f0 (List.mem_cons_self _ _))
    have hstep : download_all_loop d now (f0 :: rest) st stats =
        download_all_loop d now rest (download_folder d f0 now st stats).1
          (download_folder d f0 now st stats).2 := rfl
    rw [hstep, hfold]
    exact ih st _ (fun f hf => hall f (List.mem_cons_of_mem _ hf))

/-- C5: rerunning the pipeline against an unchanged remote leaves the
entire store state — the set of output files with their contents and every
index entry — exactly as the first run left it: the second run writes no
file, creates no duplicate and no disambiguation suffix, and touches no
entry. Hypotheses delimit the claim's setting: incremental mode is on (the
mechanism the spec names for safe re-runs), identities are unique across
the run, and every note has non-empty content and a non-empty modification
marker (a note failing these is re-fetched by the second run, which
re-saves its file in place but refreshes its entry and re-appends its
attachments). -/
theorem c5_rerun_idempotent (d : Downloader) (flt : Option (List Str))
    (now1 now2 : Nat) (st0 : StoreState) (stats0 stats1 : RunStats)
    (hinc : d.cfg.incremental = true)
    (hnd : (((folders_to_process d.cfg flt d.api.all_folders).flatMap
        (fun f => d.api.notes_in_folder f)).map Note.guid).Nodup)
    (hgood : ∀ f ∈ folders_to_process d.cfg flt d.api.all_folders,
      ∀ n ∈ d.api.notes_in_folder f, goodNote d n) :
    (download_all d flt now2 (download_all d flt now1 st0 stats0).1 stats1).1 =
      (download_all d flt now1 st0 stats0).1 := by
  have hsettled := download_all_loop_settles d now1
    (folders_to_process d.cfg flt d.api.all_folders) st0 stats0 hnd hgood
  exact download_all_loop_skip d now2 hinc
    (folders_to_process d.cfg flt d.api.all_folders) _ stats1 hsettled

/-- A remote source for the idempotence scenario: one folder, two notes
with distinct identities, non-empty content, non-empty markers, and one
declared attachment each. -/
def idemApi : RemoteApi :=
  { download_note := fun _ => some "<p>x</p>".data
    get_note_html := fun _ => []
    get_attachments := fun _ => [{ guid := "a1".data, name := "file.txt".data }]
    download_attachment := fun _ _ => "bytes".data
    notes_in_folder := fun _ =>
      [cNote "g1".data "n1".data "2024".data,
       cNote "g2".data "n2".data "2024".data]
    all_folders := ["/Notes/Work".data] }

/-- An incremental-mode downloader over the idempotence scenario. -/
def idemDl : Downloader :=
  { cfg := { incremental := true, convert_to_markdown := true,
             download_attachments := true, extract_images := true,
             exclude_folders := [] }
    api := idemApi
    conv := fun html _ _ => (html, [])
    extractRes := fun _ => []
    kb_name := "Personal".data
    preserve := true }

/-- Witness for C5: in the concrete scenario a second incremental run
returns the first run's store state unchanged. -/
theorem c5_rerun_idempotent_witness :
    (download_all idemDl none 1
        (download_all idemDl none 0 { fs := [], index := [] } emptyStats).1
        emptyStats).1 =
      (download_all idemDl none 0 { fs := [], index := [] } emptyStats).1 :=
  c5_rerun_idempotent idemDl none 0 1 { fs := [], index := [] } emptyStats emptyStats
    rfl (by decide) (by decide)
